import Mathlib

/-!
# gcevolumebug: a verification development

A shallow embedding of `gcevolumebug.go` (package `main`): the operation
poller `tester.Await`, the provisioning functions `tester.CreateDisks` and
`tester.AttachDisks`, and the event loop started by `MountDisks`.

The remote compute service and the operating system are external.  Both are
modelled as deterministic state machines over an abstract state; every
interaction of the program with them is appended, together with the answer
it got, to a trace of `Event`s.
-/

namespace Gcevolumebug

/-! ## Constants and data model -/

/-- Constant `statusDone`. -/
def statusDone : String := "DONE"

/-- Constant `interfaceSCSI`. -/
def interfaceSCSI : String := "SCSI"

/-- The struct `disk`. Its `default` is Go's zero value. -/
structure disk where
  name : String
  url : String
deriving DecidableEq, Repr, Inhabited

/-- The fields of `compute.Operation` the program reads. `Error` is a pointer
in Go: `none` is `nil`. -/
structure Operation where
  Name : String
  Status : String
  TargetLink : String
  Error : Option String
deriving DecidableEq, Repr, Inhabited

/-- The fields of `compute.Disk` the program sets (`Type_` is Go's `Type`). -/
structure ComputeDisk where
  Name : String
  SizeGb : Int
  Type_ : String
deriving DecidableEq, Repr

/-- The fields of `compute.AttachedDisk` the program sets. -/
structure AttachedDisk where
  Source : String
  DeviceName : String
  Interface : String
deriving DecidableEq, Repr

/-- The answer of a remote call `(...).Do()`: Go's pair `(op, err)`, where
`err != nil` is `Reply.err`. -/
inductive Reply where
  | ok (op : Operation)
  | err (e : String)
deriving DecidableEq, Repr

/-- A zap field. -/
inductive Field where
  | string (key val : String)
  | strings (key : String) (vals : List String)
  | error (e : String)
deriving DecidableEq, Repr

/-- A zap logger is represented by its context fields. -/
abbrev Logger := List Field

/-- The method `(*zap.Logger).With`. -/
def Logger.With (l : Logger) (fs : List Field) : Logger := l ++ fs

/-- Log levels used by the program. -/
inductive Level where
  | info
  | error
deriving DecidableEq, Repr

/-- Everything the program does to the outside world, with the answer. -/
inductive Event where
  | log (lvl : Level) (msg : String) (fields : List Field)
  | sleep (seconds : Nat)
  | zoneOperationsGet (project zone name : String) (resp : Reply)
  | disksInsert (project zone : String) (d : ComputeDisk) (resp : Reply)
  | disksDelete (project zone name : String) (resp : Reply)
  | instancesAttachDisk (project zone inst : String) (ad : AttachedDisk) (resp : Reply)
  | evalSymlinks (path target : String) (err : Option String)
  | mkdir (path : String) (perm : Nat) (err : Option String)
  | run (cmd : List String) (err : Option String)
deriving DecidableEq, Repr

/-- The remote compute API (`*compute.Service`) as a state machine over an
abstract state: each call returns its answer and the next state. `elapse`
is what happens remotely while the caller sleeps for some seconds. The API
also offers `Disks.Delete`; the program never calls it. -/
structure Service (σ : Type) where
  zoneOperationsGet : σ → String → String → String → Reply × σ
  disksInsert : σ → String → String → ComputeDisk → Reply × σ
  instancesAttachDisk : σ → String → String → String → AttachedDisk → Reply × σ
  elapse : σ → Nat → σ

/-- The state a `tester` method runs in: the remote state and the trace. -/
structure World (σ : Type) where
  svc : σ
  trace : List Event

/-- Append one event to the trace. -/
def World.emit {σ : Type} (w : World σ) (e : Event) : World σ :=
  ⟨w.svc, w.trace ++ [e]⟩

/-- The struct `tester`; its field `c` is the `Service` passed alongside. -/
structure tester where
  log : Logger
  id : String
  project : String
  zone : String

/-- Go's `error`: `none` is `nil`. -/
abbrev GoError := Option String

/-! ## tester.Await -/

/-- The method `tester.Await`. The Go loop is unbounded; `fuel` bounds the number of
fetches, and `none` means the bound was reached. -/
def tester.Await {σ : Type} (S : Service σ) (t : tester) (name : String) :
    Nat → World σ → Option (GoError × World σ)
  | 0, _ => none
  | fuel + 1, w =>
    let r := S.zoneOperationsGet w.svc t.project t.zone name
    let w1 : World σ := ⟨r.2, w.trace ++ [Event.zoneOperationsGet t.project t.zone name r.1]⟩
    match r.1 with
    | Reply.err e => some (some ("cannot check operation: " ++ e), w1)
    | Reply.ok op =>
      if op.Status = statusDone then some (none, w1)
      else if op.Error ≠ none then some (some "error waiting for operation", w1)
      else tester.Await S t name fuel ⟨S.elapse w1.svc 1, w1.trace ++ [Event.sleep 1]⟩

/-- The answer to a status fetch made in remote state `s`. -/
def pollAnswer {σ : Type} (S : Service σ) (t : tester) (name : String) (s : σ) : Reply :=
  (S.zoneOperationsGet s t.project t.zone name).1

/-- The remote state after one status fetch and the one-second sleep. -/
def pollNext {σ : Type} (S : Service σ) (t : tester) (name : String) (s : σ) : σ :=
  S.elapse (S.zoneOperationsGet s t.project t.zone name).2 1

/-- The remote state in which fetch number `j` (from 0) is made. -/
def pollState {σ : Type} (S : Service σ) (t : tester) (name : String) : Nat → σ → σ
  | 0, s => s
  | j + 1, s => pollState S t name j (pollNext S t name s)

/-- The trace of `k` fetches each followed by a sleep, then one last fetch. -/
def pollTrace {σ : Type} (S : Service σ) (t : tester) (name : String) : Nat → σ → List Event
  | 0, s => [Event.zoneOperationsGet t.project t.zone name (pollAnswer S t name s)]
  | k + 1, s =>
    Event.zoneOperationsGet t.project t.zone name (pollAnswer S t name s) ::
      Event.sleep 1 :: pollTrace S t name k (pollNext S t name s)

/-- Is the event a status fetch? -/
def Event.isGet : Event → Bool
  | Event.zoneOperationsGet _ _ _ _ => true
  | _ => false

/-- Is the event a sleep? -/
def Event.isSleep : Event → Bool
  | Event.sleep _ => true
  | _ => false

/-- A fetch answered without error, not done, no error field. -/
def Reply.pending : Reply → Prop
  | Reply.ok op => op.Status ≠ statusDone ∧ op.Error = none
  | Reply.err _ => False

/-- A fetch answered without error with status DONE. -/
def Reply.done : Reply → Prop
  | Reply.ok op => op.Status = statusDone
  | Reply.err _ => False

/-! ## tester.CreateDisks -/

/-- The name `fmt.Sprintf("gvb-%s-%d", t.id, i)` of disk number `i`. -/
def tester.diskName (t : tester) (i : Nat) : String :=
  "gvb-" ++ t.id ++ "-" ++ toString i

/-- The type URL passed with every create call. -/
def tester.diskTypeURL (t : tester) (diskType : String) : String :=
  "https://www.googleapis.com/compute/v1/projects/" ++ t.project ++ "/zones/" ++ t.zone ++
    "/diskTypes/" ++ diskType

/-- The `compute.Disk` submitted for index `i`. -/
def tester.newDisk (t : tester) (diskType : String) (diskSize : Int) (i : Nat) : ComputeDisk :=
  ⟨t.diskName i, diskSize, t.diskTypeURL diskType⟩

/-- Go's result pair `([]disk, error)`: a `nil` slice is `none`. -/
abbrev CreateResult := Option (List disk) × GoError

/-- The loop `for i := 0; i < n; i++` of `tester.CreateDisks`, entered with `i` and
`todo = n - i` iterations left. `fuel` is the bound given to every `Await`. -/
def tester.CreateDisks.loop {σ : Type} (S : Service σ) (t : tester) (diskType : String)
    (diskSize : Int) (fuel : Nat) :
    Nat → Nat → List disk → World σ → Option (CreateResult × World σ)
  | 0, _, disks, w => some ((some disks, none), w)
  | todo + 1, i, disks, w =>
    let name := t.diskName i
    let l := t.log.With [Field.string "name" name, Field.string "type" diskType]
    let w1 := w.emit (Event.log Level.info "Creating disk" l)
    let d := t.newDisk diskType diskSize i
    let r := S.disksInsert w1.svc t.project t.zone d
    let w2 : World σ := ⟨r.2, w1.trace ++ [Event.disksInsert t.project t.zone d r.1]⟩
    match r.1 with
    | Reply.err e => some ((none, some ("cannot create GCE disk " ++ name ++ ": " ++ e)), w2)
    | Reply.ok op =>
      match tester.Await S t op.Name fuel w2 with
      | none => none
      | some (some e, w3) => some ((none, some ("cannot create GCE disk: " ++ e)), w3)
      | some (none, w3) =>
        let disks1 := disks.set i ⟨name, op.TargetLink⟩
        let w4 := w3.emit
          (Event.log Level.info "Created disk" (l ++ [Field.string "url" op.TargetLink]))
        tester.CreateDisks.loop S t diskType diskSize fuel todo (i + 1) disks1 w4

/-- The method `tester.CreateDisks` for a count `n ≥ 0` (Go's `make` panics on a negative
length). `make([]disk, n)` is `n` zero values. -/
def tester.CreateDisks {σ : Type} (S : Service σ) (t : tester) (n : Nat) (diskType : String)
    (diskSize : Int) (fuel : Nat) (w : World σ) : Option (CreateResult × World σ) :=
  tester.CreateDisks.loop S t diskType diskSize fuel n 0 (List.replicate n default) w

/-- Is the event a disk-create call? -/
def Event.isInsert : Event → Bool
  | Event.disksInsert _ _ _ _ => true
  | _ => false

/-- Is the event a disk-delete call? -/
def Event.isDelete : Event → Bool
  | Event.disksDelete _ _ _ _ => true
  | _ => false

/-- Is the event a status fetch or a sleep for the operation called `name`? -/
def Event.isPollOf (name : String) : Event → Bool
  | Event.zoneOperationsGet _ _ nm _ => nm = name
  | Event.sleep _ => true
  | _ => false

/-- Is the event a call to the remote service? -/
def Event.isRemote : Event → Bool
  | Event.zoneOperationsGet _ _ _ _ => true
  | Event.disksInsert _ _ _ _ => true
  | Event.disksDelete _ _ _ _ => true
  | Event.instancesAttachDisk _ _ _ _ _ => true
  | _ => false

/-- The remote calls and sleeps of a trace (log records dropped). -/
def calls (tr : List Event) : List Event :=
  tr.filter (fun e => e.isRemote || e.isSleep)

/-- One round of a successful `CreateDisks`: the create call for index `i`, answered
by `op`, then the polls of `op.Name`. -/
structure Round where
  op : Operation
  polls : List Event

/-- The remote calls and sleeps of the rounds for indices `i, i+1, ...`. -/
def roundCalls (t : tester) (diskType : String) (diskSize : Int) : Nat → List Round → List Event
  | _, [] => []
  | i, r :: rs =>
    Event.disksInsert t.project t.zone (t.newDisk diskType diskSize i) (Reply.ok r.op) ::
      (r.polls ++ roundCalls t diskType diskSize (i + 1) rs)

/-- The disks of the rounds for indices `i, i+1, ...`. -/
def roundDisks (t : tester) : Nat → List Round → List disk
  | _, [] => []
  | i, r :: rs => ⟨t.diskName i, r.op.TargetLink⟩ :: roundDisks t (i + 1) rs

/-- The disks submitted by the create calls of a trace, in order. -/
def insertedDisks : List Event → List ComputeDisk
  | [] => []
  | Event.disksInsert _ _ d _ :: es => d :: insertedDisks es
  | _ :: es => insertedDisks es

/-- The polls of a round are fetches of its operation, each but the last followed by a
sleep, and the last one is answered DONE. -/
def Round.ok {σ : Type} (S : Service σ) (t : tester) (r : Round) : Prop :=
  ∃ k s, r.polls = pollTrace S t r.op.Name k s ∧
    (∀ j, j < k → (pollAnswer S t r.op.Name (pollState S t r.op.Name j s)).pending) ∧
    (pollAnswer S t r.op.Name (pollState S t r.op.Name k s)).done

/-! ## tester.AttachDisks -/

/-- A goroutine body as a sequence of atomic actions: log a record, or call
`Instances.AttachDisk` and go on with the answer. -/
inductive Task where
  | done
  | log (e : Event) (k : Task)
  | attach (project zone inst : String) (ad : AttachedDisk) (k : Reply → Task)

/-- One atomic action of a goroutine. -/
def Task.step {σ : Type} (S : Service σ) : Task → World σ → Task × World σ
  | Task.done, w => (Task.done, w)
  | Task.log e k, w => (k, w.emit e)
  | Task.attach project zone inst ad k, w =>
    let r := S.instancesAttachDisk w.svc project zone inst ad
    (k r.1, ⟨r.2, w.trace ++ [Event.instancesAttachDisk project zone inst ad r.1]⟩)

/-- A goroutine run to its end without interruption. -/
def Task.run {σ : Type} (S : Service σ) : Task → World σ → World σ
  | Task.done, w => w
  | Task.log e k, w => Task.run S k (w.emit e)
  | Task.attach project zone inst ad k, w =>
    let r := S.instancesAttachDisk w.svc project zone inst ad
    Task.run S (k r.1) ⟨r.2, w.trace ++ [Event.instancesAttachDisk project zone inst ad r.1]⟩

/-- The request `&compute.AttachedDisk{...}` built for a disk. -/
def attachRequest (d : disk) : AttachedDisk :=
  ⟨d.url, d.name, interfaceSCSI⟩

/-- The goroutine `go func(disk disk) { ... }(d)` of `tester.AttachDisks`. -/
def tester.attachTask (t : tester) (instanceName : String) (d : disk) : Task :=
  let l := t.log.With [Field.string "instance" instanceName, Field.string "url" d.url,
    Field.string "name" d.name]
  Task.attach t.project t.zone instanceName (attachRequest d) (fun r =>
    let rest := Task.log (Event.log Level.info "Attached disk" l) Task.done
    match r with
    | Reply.err e =>
      Task.log (Event.log Level.error "Disk attachment failed" (t.log ++ [Field.error e])) rest
    | Reply.ok _ => rest)

/-- The method `tester.AttachDisks`: it starts one goroutine per disk, in list order, and
returns; the result is the list of goroutines started. -/
def tester.AttachDisks (t : tester) (instanceName : String) (disks : List disk) : List Task :=
  disks.map (fun d => t.attachTask instanceName d)

/-- One scheduling decision: goroutine number `i` of the pool does one atomic action
(nothing happens when there is no such goroutine). -/
def stepPool {σ : Type} (S : Service σ) (i : Nat) (p : List Task × World σ) :
    List Task × World σ :=
  match p.1.get? i with
  | none => p
  | some task => ((p.1.set i (task.step S p.2).1), (task.step S p.2).2)

/-- The pool run under a schedule, a list of goroutine numbers. -/
def runPool {σ : Type} (S : Service σ) : List Nat → List Task × World σ → List Task × World σ
  | [], p => p
  | i :: sched, p => runPool S sched (stepPool S i p)

/-- The attach requests of a trace, in order: project, zone, instance, request. -/
def attachCalls : List Event → List (String × String × String × AttachedDisk)
  | [] => []
  | Event.instancesAttachDisk project zone inst ad _ :: es =>
    (project, zone, inst, ad) :: attachCalls es
  | _ :: es => attachCalls es

/-- The log records of a trace, in order: level and message. -/
def logRecords : List Event → List (Level × String)
  | [] => []
  | Event.log lvl msg _ :: es => (lvl, msg) :: logRecords es
  | _ :: es => logRecords es

/-- A goroutine that will make no attach call any more: it only logs. -/
def Task.quiet : Task → Prop
  | Task.done => True
  | Task.log e k => attachCalls [e] = [] ∧ Task.quiet k
  | Task.attach _ _ _ _ _ => False

/-- The attach request expected for disk number `i`. -/
def tester.requestAt (t : tester) (instanceName : String) (disks : List disk) (i : Nat) :
    String × String × String × AttachedDisk :=
  (t.project, t.zone, instanceName, attachRequest (disks.getD i default))

/-- The invariant of a pool started by `AttachDisks`: the goroutines listed in `order`
have made their attach call, in that order, and only log from now on; the others
have not started. -/
def PoolInv {σ : Type} (t : tester) (instanceName : String) (disks : List disk)
    (w : World σ) (p : List Task × World σ) : Prop :=
  ∃ order : List Nat, order.Nodup ∧ (∀ i ∈ order, i < disks.length) ∧
    p.1.length = disks.length ∧
    (∀ i, i < disks.length → i ∉ order →
      p.1.get? i = some (t.attachTask instanceName (disks.getD i default))) ∧
    (∀ i ∈ order, ∃ task, p.1.get? i = some task ∧ task.quiet) ∧
    ∃ ext, p.2.trace = w.trace ++ ext ∧
      attachCalls ext = order.map (t.requestAt instanceName disks)

/-! ## path/filepath (Unix) -/

/-- Split a path at every slash. -/
def filepath.split : List Char → List Char → List (List Char)
  | [], acc => [acc.reverse]
  | c :: cs, acc =>
    if c = '/' then acc.reverse :: filepath.split cs [] else filepath.split cs (c :: acc)

/-- The elements kept by `Clean`, on a stack: empty and `.` elements are dropped, `..`
removes the element before it, or is dropped at the root, or is kept. -/
def filepath.cleanParts (rooted : Bool) : List (List Char) → List (List Char) → List (List Char)
  | [], out => out.reverse
  | c :: cs, out =>
    if c = [] ∨ c = ['.'] then filepath.cleanParts rooted cs out
    else if c = ['.', '.'] then
      match out with
      | top :: rest =>
        if top = ['.', '.'] then filepath.cleanParts rooted cs (c :: out)
        else filepath.cleanParts rooted cs rest
      | [] => if rooted then filepath.cleanParts rooted cs [] else filepath.cleanParts rooted cs [c]
    else filepath.cleanParts rooted cs (c :: out)

/-- Go's `filepath.Clean` on Unix. -/
def filepath.Clean (path : String) : String :=
  if path = "" then "."
  else
    let rooted := path.toList.head? = some '/'
    let parts := (filepath.cleanParts rooted (filepath.split path.toList []) []).map String.mk
    if rooted then "/" ++ "/".intercalate parts
    else if parts = [] then "." else "/".intercalate parts

/-- Go's `filepath.Join` on Unix: empty elements before the first non-empty one are
ignored, the rest is joined with slashes and cleaned. -/
def filepath.Join (elem : List String) : String :=
  match elem.dropWhile (fun e => e = "") with
  | [] => ""
  | es => filepath.Clean ("/".intercalate es)

/-- Go's `filepath.Base` on Unix. -/
def filepath.Base (path : String) : String :=
  if path = "" then "."
  else
    let stripped := path.toList.reverse.dropWhile (fun c => c = '/')
    let last := (stripped.takeWhile (fun c => c ≠ '/')).reverse
    if last = [] then "/" else String.mk last

/-! ## MountDisks -/

/-- The operating system as a state machine: `filepath.EvalSymlinks` (Go's pair of
target and error), `os.Mkdir`, and `exec.Command(cmd[0], cmd[1:]...).Run()`. -/
structure OS (ω : Type) where
  evalSymlinks : ω → String → (String × GoError) × ω
  mkdir : ω → String → Nat → GoError × ω
  run : ω → List String → GoError × ω

/-- The struct `fsnotify.Event`; `Op` is a bit mask. -/
structure FsEvent where
  Name : String
  Op : Nat
deriving DecidableEq, Repr

/-- The bit `fsnotify.Create`. -/
def fsnotify.Create : Nat := 1

/-- What the `select` of the loop receives: an event or a watcher error. -/
inductive Msg where
  | event (e : FsEvent)
  | error (err : String)
deriving DecidableEq, Repr

/-- The state of the goroutine started by `MountDisks`: the keys of the map `seen`
(only `true` is ever stored), the operating system, the trace. -/
structure Watcher (ω : Type) where
  seen : List String
  os : ω
  trace : List Event

/-- Append one event to the trace. -/
def Watcher.emit {ω : Type} (st : Watcher ω) (e : Event) : Watcher ω :=
  ⟨st.seen, st.os, st.trace ++ [e]⟩

/-- The state in which the goroutine starts: `seen := make(map[string]bool)`. -/
def Watcher.fresh {ω : Type} (os : ω) : Watcher ω := ⟨[], os, []⟩

/-- The mountpoint `filepath.Join("/mnt", filepath.Base(disk))`. -/
def MountDisks.mountpoint (disk : String) : String :=
  filepath.Join ["/mnt", filepath.Base disk]

/-- The slice `fmtcmd`. -/
def MountDisks.fmtcmd (disk : String) : List String :=
  ["mkfs.ext4", "-F", "-m0", disk]

/-- The slice `mntcmd` as it is when the mount command is run. -/
def MountDisks.mntcmd (systemd : Bool) (disk mp : String) : List String :=
  let mntcmd := ["mount", "-t", "ext4", "-o", "rw,seclabel,relatime,data=ordered", disk, mp]
  if systemd then
    let sr := ["systemd-run", "--scope", "--", "mount", "-t", "ext4", "-o",
      "rw,seclabel,relatime,data=ordered"]
    sr ++ mntcmd
  else mntcmd

/-- Is `event.Op&fsnotify.Create == fsnotify.Create`? -/
def FsEvent.isCreate (event : FsEvent) : Bool :=
  event.Op &&& fsnotify.Create = fsnotify.Create

/-- The body of `case event := <-watcher.Events`. -/
def MountDisks.handle {ω : Type} (O : OS ω) (log : Logger) (systemd : Bool) (event : FsEvent)
    (st : Watcher ω) : Watcher ω :=
  if event.Op &&& fsnotify.Create ≠ fsnotify.Create then st
  else
    let disk := event.Name
    let mp := MountDisks.mountpoint disk
    let l := log.With [Field.string "disk" disk, Field.string "mountpoint" mp]
    let r := O.evalSymlinks st.os disk
    let target := r.1.1
    let st1 : Watcher ω := ⟨st.seen, r.2, st.trace ++ [Event.evalSymlinks disk target r.1.2]⟩
    let st2 := if r.1.2 ≠ none
      then st1.emit (Event.log Level.info "Cannot determine symlink target" l) else st1
    let l := l.With [Field.string "target" target]
    let st3 := st2.emit (Event.log Level.info "New disk detected" l)
    if target ∈ st3.seen then
      st3.emit (Event.log Level.info "Ignoring previously processed disk" l)
    else
      let m := O.mkdir st3.os mp 448
      let st4 : Watcher ω := ⟨target :: st3.seen, m.2, st3.trace ++ [Event.mkdir mp 448 m.1]⟩
      match m.1 with
      | some err =>
        st4.emit (Event.log Level.error "Error creating mountpath" (l ++ [Field.error err]))
      | none =>
        let st5 := st4.emit (Event.log Level.info "Created mountpath" l)
        let fmtcmd := MountDisks.fmtcmd disk
        let f := O.run st5.os fmtcmd
        let st6 : Watcher ω := ⟨st5.seen, f.2, st5.trace ++ [Event.run fmtcmd f.1]⟩
        match f.1 with
        | some err =>
          st6.emit (Event.log Level.error "Error formatting disk"
            (l ++ [Field.error err, Field.strings "cmd" fmtcmd]))
        | none =>
          let st7 := st6.emit (Event.log Level.info "Formatted disk" l)
          let mntcmd := MountDisks.mntcmd systemd disk mp
          let x := O.run st7.os mntcmd
          let st8 : Watcher ω := ⟨st7.seen, x.2, st7.trace ++ [Event.run mntcmd x.1]⟩
          match x.1 with
          | some err =>
            st8.emit (Event.log Level.error "Error mounting disk"
              (l ++ [Field.error err, Field.strings "cmd" mntcmd]))
          | none => st8.emit (Event.log Level.info "Mounted disk" log)

/-- One turn of the `select`. -/
def MountDisks.step {ω : Type} (O : OS ω) (log : Logger) (systemd : Bool) (m : Msg)
    (st : Watcher ω) : Watcher ω :=
  match m with
  | Msg.event event => MountDisks.handle O log systemd event st
  | Msg.error err => st.emit (Event.log Level.error "Error watching disks" (log ++ [Field.error err]))

/-- The loop `for { select { ... } }` over the messages received so far. -/
def MountDisks.loop {ω : Type} (O : OS ω) (log : Logger) (systemd : Bool) :
    List Msg → Watcher ω → Watcher ω
  | [], st => st
  | m :: ms, st => MountDisks.loop O log systemd ms (MountDisks.step O log systemd m st)

/-- The events one turn of the `select` appends to the trace. -/
def MountDisks.emitted {ω : Type} (O : OS ω) (log : Logger) (systemd : Bool) (m : Msg)
    (st : Watcher ω) : List Event :=
  (MountDisks.step O log systemd m st).trace.drop st.trace.length

/-- Is the event a mkdir, or a command run? -/
def Event.isAttempt : Event → Bool
  | Event.mkdir _ _ _ => true
  | Event.run _ _ => true
  | _ => false

/-- Is the event a run of the format command? -/
def Event.isFormat : Event → Bool
  | Event.run (c :: _) _ => c = "mkfs.ext4"
  | _ => false

/-- Is the event a run of the mount command, wrapped or not? -/
def Event.isMount : Event → Bool
  | Event.run (c :: _) _ => c = "mount" ∨ c = "systemd-run"
  | _ => false

/-- Does the message, received in state `st`, carry a creation event whose path
resolves to `T`? -/
def MountDisks.resolvesTo {ω : Type} (O : OS ω) (m : Msg) (st : Watcher ω) (T : String) : Bool :=
  match m with
  | Msg.event event => event.isCreate && ((O.evalSymlinks st.os event.Name).1.1 = T)
  | Msg.error _ => false

/-- The mkdir and command-run events of all turns whose creation event resolves to
`T`, over a run of the loop from state `st`. -/
def MountDisks.attemptsFor {ω : Type} (O : OS ω) (log : Logger) (systemd : Bool) (T : String) :
    List Msg → Watcher ω → List Event
  | [], _ => []
  | m :: ms, st =>
    (if MountDisks.resolvesTo O m st T
      then (MountDisks.emitted O log systemd m st).filter Event.isAttempt else []) ++
      MountDisks.attemptsFor O log systemd T ms (MountDisks.step O log systemd m st)

/-- Did some message of the run from state `st` carry a creation event resolving
to `T`? -/
def MountDisks.everResolved {ω : Type} (O : OS ω) (log : Logger) (systemd : Bool) (T : String) :
    List Msg → Watcher ω → Bool
  | [], _ => false
  | m :: ms, st =>
    MountDisks.resolvesTo O m st T ||
      MountDisks.everResolved O log systemd T ms (MountDisks.step O log systemd m st)

/-! ## Concrete instances used to exercise the theorems -/

/-- A tester of project `p`, zone `z`, run identifier `abcd`. -/
def demoTester : tester := ⟨[Field.string "id" "abcd"], "abcd", "p", "z"⟩

/-- A remote service whose state counts the fetches still answered RUNNING: every
create call succeeds and sets the count to 2, a fetch answers DONE at count 0, and
every attach call fails. -/
def countdownService : Service Nat where
  zoneOperationsGet := fun s _ _ nm =>
    (Reply.ok ⟨nm, if s = 0 then "DONE" else "RUNNING", "", none⟩, s - 1)
  disksInsert := fun _ _ _ d =>
    (Reply.ok ⟨"op-" ++ d.Name, "RUNNING", "url-" ++ d.Name, none⟩, 2)
  instancesAttachDisk := fun s _ _ _ _ => (Reply.err "quota exceeded", s)
  elapse := fun s _ => s

/-- A remote service whose operations have failed: every fetch answers status DONE
with an error field. -/
def failedService : Service Unit where
  zoneOperationsGet := fun s _ _ nm => (Reply.ok ⟨nm, "DONE", "", some "QUOTA_EXCEEDED"⟩, s)
  disksInsert := fun s _ _ d => (Reply.ok ⟨"op-" ++ d.Name, "RUNNING", "url-" ++ d.Name, none⟩, s)
  instancesAttachDisk := fun s _ _ _ _ => (Reply.err "quota exceeded", s)
  elapse := fun s _ => s

/-- A remote service with room for one disk: the state counts the disks created, a
create call succeeds only at count 0, and every fetch answers DONE. -/
def quotaService : Service Nat where
  zoneOperationsGet := fun s _ _ nm => (Reply.ok ⟨nm, "DONE", "", none⟩, s)
  disksInsert := fun s _ _ d =>
    if s = 0 then (Reply.ok ⟨"op-" ++ d.Name, "RUNNING", "url-" ++ d.Name, none⟩, s + 1)
    else (Reply.err "QUOTA_EXCEEDED", s)
  instancesAttachDisk := fun s _ _ _ ad => (Reply.ok ⟨"op-attach", "RUNNING", ad.Source, none⟩, s)
  elapse := fun s _ => s

/-- The mkdir and command-run events expected of one creation event whose target is
new: mkdir; then, if it succeeded, format; then, if that succeeded, mount. `os` is
the state of the operating system after the symlink resolution. -/
def MountDisks.expectedAttempts {ω : Type} (O : OS ω) (systemd : Bool) (disk : String)
    (os : ω) : List Event :=
  let mp := MountDisks.mountpoint disk
  let m := O.mkdir os mp 448
  Event.mkdir mp 448 m.1 ::
    (if m.1 = none then
      let f := O.run m.2 (MountDisks.fmtcmd disk)
      Event.run (MountDisks.fmtcmd disk) f.1 ::
        (if f.1 = none then
          [Event.run (MountDisks.mntcmd systemd disk mp)
            (O.run f.2 (MountDisks.mntcmd systemd disk mp)).1]
        else [])
    else [])

/-- An operating system on which everything succeeds, `/dev/disk/by-id/a` and
`/dev/disk/by-id/b` are links to `/dev/sdb`, and no other path resolves. The state
counts the calls. -/
def demoOS : OS Nat where
  evalSymlinks := fun s path =>
    (if path = "/dev/disk/by-id/a" ∨ path = "/dev/disk/by-id/b" then ("/dev/sdb", none)
      else ("", some "lstat: no such file or directory"), s + 1)
  mkdir := fun s _ _ => (none, s + 1)
  run := fun s _ => (none, s + 1)

/-- An operating system on which every `/mnt` directory exists already. -/
def mkdirFailsOS : OS Nat where
  evalSymlinks := fun s _ => (("/dev/sdb", none), s + 1)
  mkdir := fun s _ _ => (some "mkdir: file exists", s + 1)
  run := fun s _ => (none, s + 1)

/-- An operating system on which every command exits non-zero. -/
def runFailsOS : OS Nat where
  evalSymlinks := fun s _ => (("/dev/sdb", none), s + 1)
  mkdir := fun s _ _ => (none, s + 1)
  run := fun s _ => (some "exit status 1", s + 1)

/-! ## Lemmas on Await -/

theorem pollTrace_counts {σ : Type} (S : Service σ) (t : tester) (name : String) (k : Nat)
    (s : σ) :
    (pollTrace S t name k s).countP Event.isGet = k + 1 ∧
    (pollTrace S t name k s).countP Event.isSleep = k := by
  induction k generalizing s with
  | zero => simp [pollTrace, Event.isGet, Event.isSleep]
  | succ k ih =>
    obtain ⟨h1, h2⟩ := ih (pollNext S t name s)
    simp [pollTrace, Event.isGet, Event.isSleep, h1, h2]

theorem Await_polls {σ : Type} (S : Service σ) (t : tester) (name : String) (k : Nat) :
    ∀ (w : World σ) (fuel : Nat),
    (∀ j, j < k → (pollAnswer S t name (pollState S t name j w.svc)).pending) →
    (pollAnswer S t name (pollState S t name k w.svc)).done →
    k < fuel →
    tester.Await S t name fuel w =
      some (none, ⟨(S.zoneOperationsGet (pollState S t name k w.svc) t.project t.zone name).2,
                   w.trace ++ pollTrace S t name k w.svc⟩) := by
  induction k with
  | zero =>
    intro w fuel _ hd hf
    obtain ⟨f, rfl⟩ : ∃ f, fuel = f + 1 := ⟨fuel - 1, by omega⟩
    simp only [pollState, pollAnswer] at hd
    simp only [tester.Await, pollState, pollTrace, pollAnswer]
    cases hr : (S.zoneOperationsGet w.svc t.project t.zone name).1 with
    | err e => rw [hr] at hd; exact absurd hd (by simp [Reply.done])
    | ok op =>
      rw [hr] at hd
      simp only [Reply.done] at hd
      simp [hd]
  | succ k ih =>
    intro w fuel hp hd hf
    obtain ⟨f, rfl⟩ : ∃ f, fuel = f + 1 := ⟨fuel - 1, by omega⟩
    have h0 := hp 0 (by omega)
    simp only [pollState, pollAnswer] at h0
    simp only [tester.Await]
    cases hr : (S.zoneOperationsGet w.svc t.project t.zone name).1 with
    | err e => rw [hr] at h0; exact absurd h0 (by simp [Reply.pending])
    | ok op =>
      rw [hr] at h0
      obtain ⟨hs, he⟩ := h0
      simp only [hs, he, if_false, ne_eq, not_true_eq_false]
      have := ih ⟨S.elapse (S.zoneOperationsGet w.svc t.project t.zone name).2 1,
                  w.trace ++ [Event.zoneOperationsGet t.project t.zone name (Reply.ok op)] ++
                    [Event.sleep 1]⟩ f
        (fun j hj => by simpa [pollState, pollNext] using hp (j + 1) (by omega))
        (by simpa [pollState, pollNext] using hd) (by omega)
      rw [this]
      simp [pollState, pollNext, pollTrace, pollAnswer, hr]

/-- An `Await` that returns has appended to the trace only fetches of its operation
and sleeps. -/
theorem Await_trace {σ : Type} (S : Service σ) (t : tester) (name : String) (fuel : Nat) :
    ∀ (w : World σ) (e : GoError) (w' : World σ), tester.Await S t name fuel w = some (e, w') →
    ∃ ext, w'.trace = w.trace ++ ext ∧ ∀ x ∈ ext, x.isPollOf name = true := by
  induction fuel with
  | zero => intro w e w' h; simp [tester.Await] at h
  | succ f ih =>
    intro w e w' h
    simp only [tester.Await] at h
    split at h
    · simp only [Option.some.injEq, Prod.mk.injEq] at h
      obtain ⟨_, rfl⟩ := h
      exact ⟨_, rfl, by simp [Event.isPollOf]⟩
    · split at h
      · simp only [Option.some.injEq, Prod.mk.injEq] at h
        obtain ⟨_, rfl⟩ := h
        exact ⟨_, rfl, by simp [Event.isPollOf]⟩
      · split at h
        · simp only [Option.some.injEq, Prod.mk.injEq] at h
          obtain ⟨_, rfl⟩ := h
          exact ⟨_, rfl, by simp [Event.isPollOf]⟩
        · obtain ⟨ext, hext, hall⟩ := ih _ _ _ h
          refine ⟨Event.zoneOperationsGet t.project t.zone name
            (S.zoneOperationsGet w.svc t.project t.zone name).1 :: Event.sleep 1 :: ext,
            by simp [hext], ?_⟩
          intro x hx
          simp only [List.mem_cons] at hx
          rcases hx with rfl | rfl | hx
          · simp [Event.isPollOf]
          · simp [Event.isPollOf]
          · exact hall x hx

/-- The outcome of `Await` does not depend on the trace it starts with. -/
theorem Await_trace_irrel {σ : Type} (S : Service σ) (t : tester) (name : String) (fuel : Nat) :
    ∀ (s : σ) (tr : List Event),
    tester.Await S t name fuel ⟨s, tr⟩ =
      (tester.Await S t name fuel ⟨s, []⟩).map (fun r => (r.1, ⟨r.2.svc, tr ++ r.2.trace⟩)) := by
  induction fuel with
  | zero => intro s tr; simp [tester.Await]
  | succ f ih =>
    intro s tr
    simp only [tester.Await]
    split
    · simp
    · split
      · simp
      · split
        · simp
        · rw [ih _ (tr ++ _ ++ _), ih _ ([] ++ _ ++ _)]
          simp [Option.map_map, Function.comp_def]

/-- C1: when the first `k` status fetches of `Await` are answered without fetch error,
with a status other than DONE and no error field, and fetch `k+1` is answered DONE,
then (with a bound of more than `k` fetches) `Await` returns nil; the trace it appends is
`k` times a fetch followed by a sleep, then one fetch: `k+1` fetches and `k` sleeps. -/
theorem Await_succeeds_after_polls {σ : Type} (S : Service σ) (t : tester) (name : String)
    (k : Nat) (w : World σ) (fuel : Nat)
    (hpending : ∀ j, j < k → (pollAnswer S t name (pollState S t name j w.svc)).pending)
    (hdone : (pollAnswer S t name (pollState S t name k w.svc)).done)
    (hfuel : k < fuel) :
    ∃ w', tester.Await S t name fuel w = some (none, w') ∧
      w'.trace = w.trace ++ pollTrace S t name k w.svc ∧
      (pollTrace S t name k w.svc).countP Event.isGet = k + 1 ∧
      (pollTrace S t name k w.svc).countP Event.isSleep = k :=
  ⟨_, Await_polls S t name k w fuel hpending hdone hfuel, rfl,
    (pollTrace_counts S t name k w.svc).1, (pollTrace_counts S t name k w.svc).2⟩

/-- Witness for C1: the countdown service started at 2 answers RUNNING twice, then DONE. -/
theorem Await_succeeds_after_polls_witness :
    ∃ w', tester.Await countdownService demoTester "op" 3 ⟨2, []⟩ = some (none, w') ∧
      w'.trace = [] ++ pollTrace countdownService demoTester "op" 2 2 ∧
      (pollTrace countdownService demoTester "op" 2 2).countP Event.isGet = 2 + 1 ∧
      (pollTrace countdownService demoTester "op" 2 2).countP Event.isSleep = 2 :=
  Await_succeeds_after_polls countdownService demoTester "op" 2 ⟨2, []⟩ 3
    (by
      intro j hj
      interval_cases j <;>
        simp [pollAnswer, pollState, pollNext, countdownService, Reply.pending, statusDone])
    (by simp [pollAnswer, pollState, pollNext, countdownService, Reply.done, statusDone])
    (by decide)

/-- C2, at the failing input: the first fetch succeeds and reports status DONE together
with a non-null error field; `Await` returns nil (no error) after that fetch. -/
theorem Await_done_with_error_returns_nil :
    pollAnswer failedService demoTester "op" () =
      Reply.ok ⟨"op", "DONE", "", some "QUOTA_EXCEEDED"⟩ ∧
    tester.Await failedService demoTester "op" 1 ⟨(), []⟩ =
      some (none, ⟨(), [Event.zoneOperationsGet "p" "z" "op"
        (Reply.ok ⟨"op", "DONE", "", some "QUOTA_EXCEEDED"⟩)]⟩) := by
  constructor
  · rfl
  · simp [tester.Await, failedService, demoTester, statusDone]

/-- The part of C2 the code does implement: a fetch that succeeds with a status other than
DONE and a non-null error field makes `Await` return an error right after that fetch. -/
theorem Await_error_field_not_done {σ : Type} (S : Service σ) (t : tester) (name : String)
    (w : World σ) (fuel : Nat) (op : Operation)
    (hans : pollAnswer S t name w.svc = Reply.ok op) (hstatus : op.Status ≠ statusDone)
    (herr : op.Error ≠ none) :
    tester.Await S t name (fuel + 1) w =
      some (some "error waiting for operation",
        ⟨(S.zoneOperationsGet w.svc t.project t.zone name).2,
         w.trace ++ [Event.zoneOperationsGet t.project t.zone name (Reply.ok op)]⟩) := by
  simp only [pollAnswer] at hans
  simp [tester.Await, hans, hstatus, herr]

/-! ## Lemmas on CreateDisks -/

/-- An `Await` that returns nil saw some number of pending answers, then DONE. -/
theorem Await_nil_shape {σ : Type} (S : Service σ) (t : tester) (name : String) (fuel : Nat) :
    ∀ (w w' : World σ), tester.Await S t name fuel w = some (none, w') →
    ∃ k, (∀ j, j < k → (pollAnswer S t name (pollState S t name j w.svc)).pending) ∧
      (pollAnswer S t name (pollState S t name k w.svc)).done ∧
      w'.trace = w.trace ++ pollTrace S t name k w.svc := by
  induction fuel with
  | zero => intro w w' h; simp [tester.Await] at h
  | succ f ih =>
    intro w w' h
    simp only [tester.Await] at h
    split at h
    · simp at h
    · rename_i op hop
      split at h
      · rename_i hst
        simp only [Option.some.injEq, Prod.mk.injEq, true_and] at h
        subst h
        exact ⟨0, by intro j hj; omega, by simp [pollState, pollAnswer, hop, Reply.done, hst],
          by simp [pollTrace, pollAnswer]⟩
      · rename_i hst
        split at h
        · simp at h
        · rename_i herr
          obtain ⟨k, hp, hd, htr⟩ := ih _ _ h
          refine ⟨k + 1, ?_, by simpa [pollState, pollNext] using hd, ?_⟩
          · intro j hj
            cases j with
            | zero =>
              simp only [pollState, pollAnswer, hop, Reply.pending]
              exact ⟨hst, by simpa using herr⟩
            | succ j => simpa [pollState, pollNext] using hp j (by omega)
          · simp [htr, pollTrace, pollNext, pollAnswer]

theorem calls_append (a b : List Event) : calls (a ++ b) = calls a ++ calls b := by
  simp [calls]

theorem calls_pollTrace {σ : Type} (S : Service σ) (t : tester) (name : String) (k : Nat) :
    ∀ s, calls (pollTrace S t name k s) = pollTrace S t name k s := by
  induction k with
  | zero => intro s; simp [calls, pollTrace, Event.isRemote]
  | succ k ih =>
    intro s
    have h := ih (pollNext S t name s)
    unfold calls at h ⊢
    rw [pollTrace, List.filter_cons_of_pos (by rfl), List.filter_cons_of_pos (by rfl), h]

theorem insertedDisks_append (a b : List Event) :
    insertedDisks (a ++ b) = insertedDisks a ++ insertedDisks b := by
  induction a with
  | nil => rfl
  | cons e a ih => cases e <;> simp [insertedDisks, ih]

theorem insertedDisks_calls (a : List Event) : insertedDisks (calls a) = insertedDisks a := by
  induction a with
  | nil => rfl
  | cons e a ih =>
    cases e <;> simp_all [calls, insertedDisks, Event.isRemote, Event.isSleep, List.filter_cons]

theorem insertedDisks_pollTrace {σ : Type} (S : Service σ) (t : tester) (name : String)
    (k : Nat) : ∀ s, insertedDisks (pollTrace S t name k s) = [] := by
  induction k with
  | zero => intro s; simp [insertedDisks, pollTrace]
  | succ k ih => intro s; simp [insertedDisks, pollTrace, ih]

theorem pollTrace_isPollOf {σ : Type} (S : Service σ) (t : tester) (name : String) (k : Nat) :
    ∀ s, ∀ x ∈ pollTrace S t name k s, x.isPollOf name = true := by
  induction k with
  | zero => intro s x hx; simp [pollTrace] at hx; subst hx; simp [Event.isPollOf]
  | succ k ih =>
    intro s x hx
    simp only [pollTrace, List.mem_cons] at hx
    rcases hx with rfl | rfl | hx
    · simp [Event.isPollOf]
    · simp [Event.isPollOf]
    · exact ih _ x hx

theorem insertedDisks_roundCalls {σ : Type} (S : Service σ) (t : tester) (diskType : String)
    (diskSize : Int) (rounds : List Round) :
    ∀ i, (∀ r ∈ rounds, r.ok S t) →
    insertedDisks (roundCalls t diskType diskSize i rounds) =
      (List.range' i rounds.length).map (t.newDisk diskType diskSize) := by
  induction rounds with
  | nil => intro i _; simp [roundCalls, insertedDisks]
  | cons r rs ih =>
    intro i h
    obtain ⟨k, s, hk, _, _⟩ := h r (List.mem_cons_self _ _)
    have := ih (i + 1) (fun r' hr' => h r' (List.mem_cons_of_mem _ hr'))
    simp [roundCalls, insertedDisks, insertedDisks_append, hk, insertedDisks_pollTrace, this,
      List.range'_succ]

theorem roundDisks_length (t : tester) (rounds : List Round) :
    ∀ i, (roundDisks t i rounds).length = rounds.length := by
  induction rounds with
  | nil => intro i; rfl
  | cons r rs ih => intro i; simp [roundDisks, ih]

theorem roundDisks_get (t : tester) (rounds : List Round) :
    ∀ i j r, rounds.get? j = some r →
      (roundDisks t i rounds).get? j = some ⟨t.diskName (i + j), r.op.TargetLink⟩ := by
  induction rounds with
  | nil => intro i j r h; simp at h
  | cons r0 rs ih =>
    intro i j r h
    cases j with
    | zero =>
      simp only [List.get?_cons_zero, Option.some.injEq] at h
      subst h
      simp [roundDisks]
    | succ j =>
      simp only [List.get?_cons_succ] at h
      have := ih (i + 1) j r h
      simp only [roundDisks, List.get?_cons_succ, this]
      congr 3
      omega

theorem take_succ_set {α : Type} (d : α) :
    ∀ (l : List α) (i : Nat), i < l.length → (l.set i d).take (i + 1) = l.take i ++ [d] := by
  intro l
  induction l with
  | nil => intro i h; simp at h
  | cons a l ih =>
    intro i h
    cases i with
    | zero => simp
    | succ i => simp [ih i (by simpa using h)]

theorem drop_set_lt {α : Type} (d : α) :
    ∀ (l : List α) (i n : Nat), i < n → (l.set i d).drop n = l.drop n := by
  intro l
  induction l with
  | nil => intro i n _; simp
  | cons a l ih =>
    intro i n h
    cases n with
    | zero => omega
    | succ n =>
      cases i with
      | zero => simp
      | succ i => simp [ih i n (by omega)]

/-- A run of the loop that returns a disk list and no error did `todo` rounds, each a create
call followed by the polls of its operation until DONE, and filled the slots
`i .. i+todo-1` of the list. -/
theorem loop_success_shape {σ : Type} (S : Service σ) (t : tester) (diskType : String)
    (diskSize : Int) (fuel : Nat) (todo : Nat) :
    ∀ (i : Nat) (disks : List disk) (w : World σ) (ds : List disk) (w' : World σ),
    tester.CreateDisks.loop S t diskType diskSize fuel todo i disks w = some ((some ds, none), w') →
    i + todo ≤ disks.length →
    ∃ rounds ext, rounds.length = todo ∧
      ds = disks.take i ++ roundDisks t i rounds ++ disks.drop (i + todo) ∧
      w'.trace = w.trace ++ ext ∧ calls ext = roundCalls t diskType diskSize i rounds ∧
      ∀ r ∈ rounds, r.ok S t := by
  induction todo with
  | zero =>
    intro i disks w ds w' h hlen
    simp only [tester.CreateDisks.loop, Option.some.injEq, Prod.mk.injEq, and_true] at h
    obtain ⟨rfl, rfl⟩ := h
    exact ⟨[], [], rfl, by simp [roundDisks], by simp, rfl, by simp⟩
  | succ todo ih =>
    intro i disks w ds w' h hlen
    simp only [tester.CreateDisks.loop] at h
    split at h
    · simp at h
    · rename_i op hop
      split at h
      · simp at h
      · simp at h
      · rename_i w3 hA
        obtain ⟨k, hp, hd, htr⟩ := Await_nil_shape S t op.Name fuel _ _ hA
        obtain ⟨rounds, ext, hlen', hds, htr', hcalls, hok⟩ :=
          ih _ _ _ _ _ h (by simp only [List.length_set]; omega)
        simp only [World.emit] at hop htr
        refine ⟨⟨op, pollTrace S t op.Name k
            (S.disksInsert w.svc t.project t.zone (t.newDisk diskType diskSize i)).2⟩ :: rounds,
          Event.log Level.info "Creating disk"
              (t.log.With [Field.string "name" (t.diskName i), Field.string "type" diskType]) ::
            Event.disksInsert t.project t.zone (t.newDisk diskType diskSize i) (Reply.ok op) ::
            (pollTrace S t op.Name k
              (S.disksInsert w.svc t.project t.zone (t.newDisk diskType diskSize i)).2 ++
            Event.log Level.info "Created disk"
              (t.log.With [Field.string "name" (t.diskName i), Field.string "type" diskType] ++
                [Field.string "url" op.TargetLink]) :: ext),
          by simp [hlen'], ?_, ?_, ?_, ?_⟩
        · rw [hds, take_succ_set _ _ _ (by omega), drop_set_lt _ _ _ _ (by omega)]
          simp [roundDisks, Nat.add_assoc, Nat.add_comm 1 todo]
        · rw [htr']
          simp [World.emit, htr, hop]
        · rw [roundCalls, ← hcalls]
          have h1 := calls_pollTrace S t op.Name k
            (S.disksInsert w.svc t.project t.zone (t.newDisk diskType diskSize i)).2
          unfold calls at h1 ⊢
          rw [List.filter_cons_of_neg (by simp [Event.isRemote, Event.isSleep]),
            List.filter_cons_of_pos (by rfl), List.filter_append, h1,
            List.filter_cons_of_neg (by simp [Event.isRemote, Event.isSleep])]
        · intro r hr
          simp only [List.mem_cons] at hr
          rcases hr with rfl | hr
          · exact ⟨k, _, rfl, hp, hd⟩
          · exact hok r hr

/-- When every create call succeeds and every operation is answered DONE after finitely many
pending answers, the loop returns a disk list and no error, for every large enough
bound on the fetches of one `Await`. -/
theorem loop_succeeds {σ : Type} (S : Service σ) (t : tester) (diskType : String)
    (diskSize : Int)
    (hcreate : ∀ s d, ∃ op, (S.disksInsert s t.project t.zone d).1 = Reply.ok op)
    (hpoll : ∀ s name, ∃ k,
      (∀ j, j < k → (pollAnswer S t name (pollState S t name j s)).pending) ∧
      (pollAnswer S t name (pollState S t name k s)).done)
    (todo : Nat) :
    ∀ (i : Nat) (disks : List disk) (w : World σ), ∃ f0 ds w', ∀ fuel, f0 ≤ fuel →
      tester.CreateDisks.loop S t diskType diskSize fuel todo i disks w =
        some ((some ds, none), w') := by
  induction todo with
  | zero => intro i disks w; exact ⟨0, disks, w, fun fuel _ => rfl⟩
  | succ todo ih =>
    intro i disks w
    obtain ⟨op, hop⟩ := hcreate w.svc (t.newDisk diskType diskSize i)
    obtain ⟨k, hp, hd⟩ :=
      hpoll (S.disksInsert w.svc t.project t.zone (t.newDisk diskType diskSize i)).2 op.Name
    have hA := fun fuel => Await_polls S t op.Name k
      ⟨(S.disksInsert w.svc t.project t.zone (t.newDisk diskType diskSize i)).2,
        w.trace ++ [Event.log Level.info "Creating disk"
          (t.log.With [Field.string "name" (t.diskName i), Field.string "type" diskType])] ++
        [Event.disksInsert t.project t.zone (t.newDisk diskType diskSize i) (Reply.ok op)]⟩
      fuel hp hd
    obtain ⟨f0, ds, w', hrest⟩ := ih (i + 1) (disks.set i ⟨t.diskName i, op.TargetLink⟩)
      (World.emit
        ⟨(S.zoneOperationsGet (pollState S t op.Name k
            (S.disksInsert w.svc t.project t.zone (t.newDisk diskType diskSize i)).2)
            t.project t.zone op.Name).2,
          w.trace ++ [Event.log Level.info "Creating disk"
            (t.log.With [Field.string "name" (t.diskName i), Field.string "type" diskType])] ++
          [Event.disksInsert t.project t.zone (t.newDisk diskType diskSize i) (Reply.ok op)] ++
          pollTrace S t op.Name k
            (S.disksInsert w.svc t.project t.zone (t.newDisk diskType diskSize i)).2⟩
        (Event.log Level.info "Created disk"
          (t.log.With [Field.string "name" (t.diskName i), Field.string "type" diskType] ++
            [Field.string "url" op.TargetLink])))
    refine ⟨max (k + 1) f0, ds, w', ?_⟩
    intro fuel hfuel
    have h1 := hA fuel (by omega)
    have h2 := hrest fuel (by omega)
    simp only [tester.CreateDisks.loop, World.emit, hop]
    simp only [World.emit] at h1 h2
    rw [h1]
    exact h2

/-- Two runs of the loop agree as long as the first one succeeds: the first `a` of `a + b`
rounds are the rounds of a run of `a` rounds, whatever the disk list is. -/
theorem loop_split {σ : Type} (S : Service σ) (t : tester) (diskType : String)
    (diskSize : Int) (fuel : Nat) (a : Nat) :
    ∀ (i : Nat) (disks : List disk) (w : World σ) (ds : List disk) (w' : World σ),
    tester.CreateDisks.loop S t diskType diskSize fuel a i disks w = some ((some ds, none), w') →
    ∀ (b : Nat) (disks2 : List disk), ∃ ds2,
      tester.CreateDisks.loop S t diskType diskSize fuel (a + b) i disks2 w =
        tester.CreateDisks.loop S t diskType diskSize fuel b (i + a) ds2 w' := by
  induction a with
  | zero =>
    intro i disks w ds w' h b disks2
    simp only [tester.CreateDisks.loop, Option.some.injEq, Prod.mk.injEq, and_true] at h
    obtain ⟨_, rfl⟩ := h
    exact ⟨disks2, by simp⟩
  | succ a ih =>
    intro i disks w ds w' h b disks2
    simp only [tester.CreateDisks.loop] at h
    split at h
    · simp at h
    · rename_i op hop
      split at h
      · simp at h
      · simp at h
      · rename_i w3 hA
        obtain ⟨ds2, h2⟩ := ih _ _ _ _ _ h b (disks2.set i ⟨t.diskName i, op.TargetLink⟩)
        refine ⟨ds2, ?_⟩
        rw [show a + 1 + b = (a + b) + 1 by omega, show i + (a + 1) = i + 1 + a by omega, ← h2]
        simp only [hop] at hA
        simp only [tester.CreateDisks.loop, hop, hA]

theorem roundCalls_kinds {σ : Type} (S : Service σ) (t : tester) (diskType : String)
    (diskSize : Int) (rounds : List Round) :
    ∀ i, (∀ r ∈ rounds, r.ok S t) → ∀ x ∈ roundCalls t diskType diskSize i rounds,
      x.isInsert = true ∨ x.isGet = true ∨ x.isSleep = true := by
  induction rounds with
  | nil => intro i _ x hx; simp [roundCalls] at hx
  | cons r rs ih =>
    intro i h x hx
    simp only [roundCalls, List.mem_cons, List.mem_append] at hx
    rcases hx with rfl | hx | hx
    · simp [Event.isInsert]
    · obtain ⟨k, s, hk, _, _⟩ := h r (List.mem_cons_self _ _)
      rw [hk] at hx
      have := pollTrace_isPollOf S t r.op.Name k s x hx
      cases x <;> simp_all [Event.isPollOf, Event.isGet, Event.isSleep]
    · exact ih (i + 1) (fun r' hr' => h r' (List.mem_cons_of_mem _ hr')) x hx

theorem mem_calls_of_remote (ext : List Event) (x : Event) (hx : x ∈ ext)
    (hr : x.isRemote = true) : x ∈ calls ext := by
  simp [calls, hx, hr]

theorem isPollOf_kinds (name : String) (x : Event) (h : x.isPollOf name = true) :
    x.isDelete = false ∧ (x.isRemote = true → x.isInsert = true ∨ x.isGet = true) ∧
      insertedDisks [x] = [] := by
  cases x <;> simp_all [Event.isPollOf, Event.isDelete, Event.isRemote, Event.isGet,
    insertedDisks]

theorem insertedDisks_of_polls (name : String) (ext : List Event)
    (h : ∀ x ∈ ext, x.isPollOf name = true) : insertedDisks ext = [] := by
  induction ext with
  | nil => rfl
  | cons x ext ih =>
    have h1 := (isPollOf_kinds name x (h x (List.mem_cons_self _ _))).2.2
    have h2 := ih (fun y hy => h y (List.mem_cons_of_mem _ hy))
    have := insertedDisks_append [x] ext
    simp only [List.singleton_append] at this
    rw [this, h1, h2]
    rfl

/-- C3: when every create call succeeds and every operation is answered DONE after
finitely many pending answers, `CreateDisks(n, type, size)` returns (for every large
enough bound on the fetches of one `Await`) a nil error and `n` disks, the `i`-th
named `gvb-<id>-<i>` with the TargetLink of the operation returned by create call `i`;
the remote calls of its trace are, round after round, create call `i` followed by the
polls of that operation until DONE, so exactly `n` create calls in index order. -/
theorem CreateDisks_sequential {σ : Type} (S : Service σ) (t : tester) (n : Nat)
    (diskType : String) (diskSize : Int) (w : World σ)
    (hcreate : ∀ s d, ∃ op, (S.disksInsert s t.project t.zone d).1 = Reply.ok op)
    (hpoll : ∀ s name, ∃ k,
      (∀ j, j < k → (pollAnswer S t name (pollState S t name j s)).pending) ∧
      (pollAnswer S t name (pollState S t name k s)).done) :
    ∃ f0 rounds ext w',
      (∀ fuel, f0 ≤ fuel → tester.CreateDisks S t n diskType diskSize fuel w =
        some ((some (roundDisks t 0 rounds), none), w')) ∧
      rounds.length = n ∧ (roundDisks t 0 rounds).length = n ∧
      (∀ i r, rounds.get? i = some r → (roundDisks t 0 rounds).get? i =
        some ⟨"gvb-" ++ t.id ++ "-" ++ toString i, r.op.TargetLink⟩) ∧
      w'.trace = w.trace ++ ext ∧
      calls ext = roundCalls t diskType diskSize 0 rounds ∧
      (∀ r ∈ rounds, r.ok S t) ∧
      insertedDisks ext = (List.range n).map (t.newDisk diskType diskSize) := by
  obtain ⟨f0, ds, w', hrun⟩ :=
    loop_succeeds S t diskType diskSize hcreate hpoll n 0 (List.replicate n default) w
  obtain ⟨rounds, ext, hlen, hds, htr, hcalls, hok⟩ :=
    loop_success_shape S t diskType diskSize f0 n 0 (List.replicate n default) w ds w'
      (hrun f0 (Nat.le_refl _)) (by simp)
  have hds2 : ds = roundDisks t 0 rounds := by simpa using hds
  subst hds2
  refine ⟨f0, rounds, ext, w', hrun, hlen, by rw [roundDisks_length, hlen], ?_, htr, hcalls, hok,
    ?_⟩
  · intro i r hr
    have := roundDisks_get t rounds 0 i r hr
    simpa [tester.diskName] using this
  · rw [← insertedDisks_calls, hcalls, insertedDisks_roundCalls S t diskType diskSize rounds 0 hok,
      hlen, List.range_eq_range']

/-- C4: when the first `i` rounds of `CreateDisks` succeed and, in round `i < n`, the create
call fails or the `Await` on its operation returns an error, `CreateDisks` returns a nil
disk list and a non-nil error; its trace holds exactly the `i+1` create calls for the
indices `0..i`, no delete call, and no remote call other than creates and fetches. -/
theorem CreateDisks_failure_aborts {σ : Type} (S : Service σ) (t : tester) (n : Nat)
    (diskType : String) (diskSize : Int) (fuel : Nat) (w : World σ) (i : Nat) (hi : i < n)
    (ds : List disk) (wi : World σ)
    (hprev : tester.CreateDisks S t i diskType diskSize fuel w = some ((some ds, none), wi))
    (hfail :
      (∃ e, (S.disksInsert wi.svc t.project t.zone (t.newDisk diskType diskSize i)).1 =
        Reply.err e) ∨
      (∃ op e w3,
        (S.disksInsert wi.svc t.project t.zone (t.newDisk diskType diskSize i)).1 = Reply.ok op ∧
        tester.Await S t op.Name fuel
          ⟨(S.disksInsert wi.svc t.project t.zone (t.newDisk diskType diskSize i)).2, []⟩ =
            some (some e, w3))) :
    ∃ e wf ext, tester.CreateDisks S t n diskType diskSize fuel w = some ((none, some e), wf) ∧
      wf.trace = w.trace ++ ext ∧
      insertedDisks ext = (List.range (i + 1)).map (t.newDisk diskType diskSize) ∧
      (∀ x ∈ ext, x.isDelete = false) ∧
      (∀ x ∈ ext, x.isRemote = true → x.isInsert = true ∨ x.isGet = true) := by
  unfold tester.CreateDisks at hprev
  obtain ⟨rounds, ext0, hlen, _, htr, hcalls, hok⟩ :=
    loop_success_shape S t diskType diskSize fuel i 0 _ w ds wi hprev (by simp)
  have hins0 : insertedDisks ext0 = (List.range i).map (t.newDisk diskType diskSize) := by
    rw [← insertedDisks_calls, hcalls,
      insertedDisks_roundCalls S t diskType diskSize rounds 0 hok, hlen, List.range_eq_range']
  have hkind0 : ∀ x ∈ ext0, x.isRemote = true → x.isInsert = true ∨ x.isGet = true := by
    intro x hx hr
    have hm := mem_calls_of_remote ext0 x hx hr
    rw [hcalls] at hm
    rcases roundCalls_kinds S t diskType diskSize rounds 0 hok x hm with h | h | h
    · exact Or.inl h
    · exact Or.inr h
    · cases x <;> simp_all [Event.isSleep, Event.isRemote]
  obtain ⟨b, hb⟩ : ∃ b, n = i + (b + 1) := ⟨n - i - 1, by omega⟩
  obtain ⟨ds2, hsplit⟩ := loop_split S t diskType diskSize fuel i 0 _ w ds wi hprev (b + 1)
    (List.replicate n default)
  have hdel : ∀ (ext : List Event),
      (∀ x ∈ ext, x.isRemote = true → x.isInsert = true ∨ x.isGet = true) →
      ∀ x ∈ ext, x.isDelete = false := by
    intro ext h x hx
    have := h x hx
    cases x <;> simp_all [Event.isDelete, Event.isRemote, Event.isInsert, Event.isGet]
  unfold tester.CreateDisks
  rw [hb] at *
  rw [hsplit]
  simp only [Nat.zero_add, tester.CreateDisks.loop, World.emit]
  rcases hfail with ⟨e, he⟩ | ⟨op, e, w3, hop, hA⟩
  · simp only [he]
    refine ⟨_, _, ext0 ++ [Event.log Level.info "Creating disk"
        (t.log.With [Field.string "name" (t.diskName i), Field.string "type" diskType]),
      Event.disksInsert t.project t.zone (t.newDisk diskType diskSize i) (Reply.err e)],
      rfl, by simp [htr], ?_, ?_, ?_⟩
    · simp [insertedDisks_append, hins0, insertedDisks, List.range_succ]
    · apply hdel
      intro x hx
      simp only [List.mem_append, List.mem_cons, List.mem_singleton, List.not_mem_nil,
        or_false] at hx
      rcases hx with hx | rfl | rfl
      · exact hkind0 x hx
      · simp [Event.isRemote]
      · simp [Event.isInsert]
    · intro x hx
      simp only [List.mem_append, List.mem_cons, List.mem_singleton, List.not_mem_nil,
        or_false] at hx
      rcases hx with hx | rfl | rfl
      · exact hkind0 x hx
      · simp [Event.isRemote]
      · simp [Event.isInsert]
  · obtain ⟨extA, hextA, hpolls⟩ := Await_trace S t op.Name fuel _ _ _ hA
    simp only [List.nil_append] at hextA
    simp only [hop]
    rw [Await_trace_irrel, hA]
    have hk : ∀ x ∈ ext0 ++ [Event.log Level.info "Creating disk"
          (t.log.With [Field.string "name" (t.diskName i), Field.string "type" diskType]),
        Event.disksInsert t.project t.zone (t.newDisk diskType diskSize i) (Reply.ok op)] ++ extA,
        x.isRemote = true → x.isInsert = true ∨ x.isGet = true := by
      intro x hx
      simp only [List.mem_append, List.mem_cons, List.mem_singleton, List.not_mem_nil,
        or_false] at hx
      rcases hx with (hx | rfl | rfl) | hx
      · exact hkind0 x hx
      · simp [Event.isRemote]
      · simp [Event.isInsert]
      · exact (isPollOf_kinds op.Name x (hpolls x hx)).2.1
    refine ⟨_, _, ext0 ++ [Event.log Level.info "Creating disk"
        (t.log.With [Field.string "name" (t.diskName i), Field.string "type" diskType]),
      Event.disksInsert t.project t.zone (t.newDisk diskType diskSize i) (Reply.ok op)] ++ extA,
      rfl, by simp [htr, hextA], ?_, hdel _ hk, hk⟩
    simp [insertedDisks_append, hins0, insertedDisks, List.range_succ,
      insertedDisks_of_polls op.Name extA hpolls]

theorem countdown_pollState (t : tester) (name : String) (j : Nat) :
    ∀ s, pollState countdownService t name j s = s - j := by
  induction j with
  | zero => intro s; rfl
  | succ j ih =>
    intro s
    rw [pollState, ih]
    simp only [pollNext, countdownService]
    omega

theorem countdown_polls (t : tester) (s : Nat) (name : String) :
    ∃ k, (∀ j, j < k →
        (pollAnswer countdownService t name (pollState countdownService t name j s)).pending) ∧
      (pollAnswer countdownService t name (pollState countdownService t name k s)).done := by
  refine ⟨s, ?_, ?_⟩
  · intro j hj
    rw [countdown_pollState]
    have : s - j ≠ 0 := by omega
    simp [pollAnswer, countdownService, Reply.pending, this, statusDone]
  · rw [countdown_pollState]
    simp [pollAnswer, countdownService, Reply.done, statusDone]

/-- Witness for C3: two disks on the countdown service. -/
theorem CreateDisks_sequential_witness :
    ∃ f0 rounds ext w',
      (∀ fuel, f0 ≤ fuel →
        tester.CreateDisks countdownService demoTester 2 "pd-standard" 128 fuel ⟨0, []⟩ =
          some ((some (roundDisks demoTester 0 rounds), none), w')) ∧
      rounds.length = 2 ∧ (roundDisks demoTester 0 rounds).length = 2 ∧
      (∀ i r, rounds.get? i = some r → (roundDisks demoTester 0 rounds).get? i =
        some ⟨"gvb-" ++ demoTester.id ++ "-" ++ toString i, r.op.TargetLink⟩) ∧
      w'.trace = [] ++ ext ∧
      calls ext = roundCalls demoTester "pd-standard" 128 0 rounds ∧
      (∀ r ∈ rounds, r.ok countdownService demoTester) ∧
      insertedDisks ext = (List.range 2).map (demoTester.newDisk "pd-standard" 128) :=
  CreateDisks_sequential countdownService demoTester 2 "pd-standard" 128 ⟨0, []⟩
    (fun _ d => ⟨⟨"op-" ++ d.Name, "RUNNING", "url-" ++ d.Name, none⟩, rfl⟩)
    (fun s name => countdown_polls demoTester s name)

/-- Witness for C4: three disks asked of the service with room for one; the create call
for index 1 fails. -/
theorem CreateDisks_failure_aborts_witness :
    ∃ e wf ext,
      tester.CreateDisks quotaService demoTester 3 "pd-standard" 128 1 ⟨0, []⟩ =
        some ((none, some e), wf) ∧
      wf.trace = [] ++ ext ∧
      insertedDisks ext = (List.range (1 + 1)).map (demoTester.newDisk "pd-standard" 128) ∧
      (∀ x ∈ ext, x.isDelete = false) ∧
      (∀ x ∈ ext, x.isRemote = true → x.isInsert = true ∨ x.isGet = true) :=
  CreateDisks_failure_aborts quotaService demoTester 3 "pd-standard" 128 1 ⟨0, []⟩ 1 (by decide)
    [⟨"gvb-abcd-0", "url-gvb-abcd-0"⟩]
    ⟨1, [Event.log Level.info "Creating disk"
          [Field.string "id" "abcd", Field.string "name" "gvb-abcd-0",
            Field.string "type" "pd-standard"],
        Event.disksInsert "p" "z"
          ⟨"gvb-abcd-0", 128,
            "https://www.googleapis.com/compute/v1/projects/p/zones/z/diskTypes/pd-standard"⟩
          (Reply.ok ⟨"op-gvb-abcd-0", "RUNNING", "url-gvb-abcd-0", none⟩),
        Event.zoneOperationsGet "p" "z" "op-gvb-abcd-0"
          (Reply.ok ⟨"op-gvb-abcd-0", "DONE", "", none⟩),
        Event.log Level.info "Created disk"
          [Field.string "id" "abcd", Field.string "name" "gvb-abcd-0",
            Field.string "type" "pd-standard", Field.string "url" "url-gvb-abcd-0"]]⟩
    (by rfl)
    (Or.inl ⟨"QUOTA_EXCEEDED", by rfl⟩)

/-! ## Lemmas on AttachDisks -/

theorem attachCalls_append (a b : List Event) :
    attachCalls (a ++ b) = attachCalls a ++ attachCalls b := by
  induction a with
  | nil => rfl
  | cons e a ih => cases e <;> simp [attachCalls, ih]

theorem requests_range (t : tester) (instanceName : String) (disks : List disk) :
    (List.range disks.length).map (t.requestAt instanceName disks) =
      disks.map (fun d => (t.project, t.zone, instanceName, attachRequest d)) := by
  apply List.ext_getElem?
  intro j
  by_cases hj : j < disks.length
  · simp [hj, tester.requestAt, List.getD_eq_getElem?_getD, List.getElem?_eq_getElem hj]
  · have hj2 := Nat.le_of_not_lt hj
    simp [hj2, List.getElem?_eq_none hj2]

theorem PoolInv_init {σ : Type} (t : tester) (instanceName : String) (disks : List disk)
    (w : World σ) : PoolInv t instanceName disks w (t.AttachDisks instanceName disks, w) := by
  refine ⟨[], List.nodup_nil, by simp, by simp [tester.AttachDisks], ?_, by simp,
    [], by simp, rfl⟩
  intro i hi _
  simp [tester.AttachDisks, List.getD_eq_getElem?_getD, List.getElem?_eq_getElem hi]

theorem PoolInv_step {σ : Type} (S : Service σ) (t : tester) (instanceName : String)
    (disks : List disk) (w : World σ) (i : Nat) (p : List Task × World σ)
    (h : PoolInv t instanceName disks w p) :
    PoolInv t instanceName disks w (stepPool S i p) := by
  obtain ⟨order, hnd, hlt, hlen, hnew, hold, ext, htr, hcalls⟩ := h
  unfold stepPool
  cases hget : p.1.get? i with
  | none => exact ⟨order, hnd, hlt, hlen, hnew, hold, ext, htr, hcalls⟩
  | some task =>
    have hi : i < disks.length := by
      rw [← hlen]
      exact (List.get?_eq_some.mp hget).1
    simp only
    by_cases hmem : i ∈ order
    · obtain ⟨task', hget', hq⟩ := hold i hmem
      rw [hget] at hget'
      obtain rfl : task = task' := by simpa using hget'
      have hstep : (Task.step S task p.2).1.quiet ∧
          ∃ e, (Task.step S task p.2).2.trace = p.2.trace ++ e ∧ attachCalls e = [] := by
        cases task with
        | done => exact ⟨trivial, [], by simp [Task.step], rfl⟩
        | log e k => exact ⟨hq.2, [e], by simp [Task.step, World.emit], hq.1⟩
        | attach _ _ _ _ _ => exact absurd hq (by simp [Task.quiet])
      obtain ⟨hq', e, he, hce⟩ := hstep
      refine ⟨order, hnd, hlt, by simp [hlen], ?_, ?_, ext ++ e, by simp [he, htr],
        by simp [attachCalls_append, hcalls, hce]⟩
      · intro j hj hjn
        have hne : i ≠ j := fun hij => hjn (hij ▸ hmem)
        simp only [List.get?_eq_getElem?, List.getElem?_set_ne hne]
        simpa using hnew j hj hjn
      · intro j hj
        by_cases hij : i = j
        · subst hij
          refine ⟨_, ?_, hq'⟩
          simp [List.getElem?_set, hlen, hi]
        · obtain ⟨tk, htk, hqk⟩ := hold j hj
          refine ⟨tk, ?_, hqk⟩
          simp only [List.get?_eq_getElem?, List.getElem?_set_ne hij]
          simpa using htk
    · have htask := hnew i hi hmem
      rw [hget] at htask
      obtain rfl : task = t.attachTask instanceName (disks.getD i default) := by
        simpa using htask
      refine ⟨order ++ [i], ?_, ?_, by simp [hlen], ?_, ?_, ?_⟩
      · exact List.Nodup.append hnd (List.nodup_singleton i) (by simpa using hmem)
      · intro j hj
        simp only [List.mem_append, List.mem_singleton] at hj
        rcases hj with hj | rfl
        · exact hlt j hj
        · exact hi
      · intro j hj hjn
        simp only [List.mem_append, List.mem_singleton, not_or] at hjn
        have hne : i ≠ j := fun hij => hjn.2 hij.symm
        simp only [List.get?_eq_getElem?, List.getElem?_set_ne hne]
        simpa using hnew j hj hjn.1
      · intro j hj
        simp only [List.mem_append, List.mem_singleton] at hj
        by_cases hij : i = j
        · subst hij
          refine ⟨(Task.step S (t.attachTask instanceName (disks.getD i default)) p.2).1,
            by simp [List.getElem?_set, hlen, hi], ?_⟩
          simp only [tester.attachTask, Task.step]
          split <;> simp [Task.quiet, attachCalls]
        · rcases hj with hj | rfl
          · obtain ⟨tk, htk, hqk⟩ := hold j hj
            refine ⟨tk, ?_, hqk⟩
            simp only [List.get?_eq_getElem?, List.getElem?_set_ne hij]
            simpa using htk
          · exact absurd rfl hij
      · refine ⟨ext ++ [Event.instancesAttachDisk t.project t.zone instanceName
          (attachRequest (disks.getD i default))
          (S.instancesAttachDisk p.2.svc t.project t.zone instanceName
            (attachRequest (disks.getD i default))).1], ?_, ?_⟩
        · simp [tester.attachTask, Task.step, htr]
        · simp [attachCalls_append, hcalls, attachCalls, tester.requestAt]

theorem PoolInv_run {σ : Type} (S : Service σ) (t : tester) (instanceName : String)
    (disks : List disk) (w : World σ) (sched : List Nat) :
    ∀ p, PoolInv t instanceName disks w p →
      PoolInv t instanceName disks w (runPool S sched p) := by
  induction sched with
  | nil => intro p h; exact h
  | cons i sched ih => intro p h; exact ih _ (PoolInv_step S t instanceName disks w i p h)

/-- C8: `AttachDisks` starts exactly one goroutine per disk of the list, the `i`-th for
the `i`-th disk. Under every schedule of their atomic actions the attach requests made
are, up to order, among the requests (project, zone, instance, Source = url,
DeviceName = name, Interface = SCSI) of the disks of the list, each disk at most once;
once all goroutines are done they are exactly those requests, one per disk. -/
theorem AttachDisks_requests {σ : Type} (S : Service σ) (t : tester) (instanceName : String)
    (disks : List disk) (sched : List Nat) (w : World σ) :
    (t.AttachDisks instanceName disks).length = disks.length ∧
    (∀ i d, disks.get? i = some d →
      (t.AttachDisks instanceName disks).get? i = some (t.attachTask instanceName d)) ∧
    ∃ ext, (runPool S sched (t.AttachDisks instanceName disks, w)).2.trace = w.trace ++ ext ∧
      (attachCalls ext).Subperm
        (disks.map (fun d => (t.project, t.zone, instanceName, ⟨d.url, d.name, "SCSI"⟩))) ∧
      ((∀ task ∈ (runPool S sched (t.AttachDisks instanceName disks, w)).1, task = Task.done) →
        (attachCalls ext).Perm
          (disks.map (fun d => (t.project, t.zone, instanceName, ⟨d.url, d.name, "SCSI"⟩))) ∧
        (attachCalls ext).length = disks.length) := by
  refine ⟨by simp [tester.AttachDisks], ?_, ?_⟩
  · intro i d hd
    simp only [List.get?_eq_getElem?] at hd
    simp [tester.AttachDisks, hd]
  · obtain ⟨order, hnd, hlt, hlen, hnew, hold, ext, htr, hcalls⟩ :=
      PoolInv_run S t instanceName disks w sched _ (PoolInv_init t instanceName disks w)
    have hreq := requests_range t instanceName disks
    simp only [attachRequest, interfaceSCSI] at hreq
    refine ⟨ext, htr, ?_, ?_⟩
    · rw [hcalls, ← hreq]
      have hsub : order.Subperm (List.range disks.length) :=
        List.subperm_of_subset hnd (fun i hi => List.mem_range.mpr (hlt i hi))
      obtain ⟨l, hl, hs⟩ := hsub
      exact ⟨l.map _, hl.map _, hs.map _⟩
    · intro hdone
      have hperm : order.Perm (List.range disks.length) := by
        rw [List.perm_ext_iff_of_nodup hnd (List.nodup_range _)]
        intro i
        constructor
        · intro hi; exact List.mem_range.mpr (hlt i hi)
        · intro hi
          by_contra hni
          have hget := hnew i (List.mem_range.mp hi) hni
          have := hdone _ (List.get?_mem hget)
          simp [tester.attachTask] at this
      refine ⟨?_, ?_⟩
      · rw [hcalls, ← hreq]
        exact hperm.map _
      · rw [hcalls, List.length_map, hperm.length_eq, List.length_range]

/-- Witness for C8: two disks, both goroutines run to their end, interleaved. -/
theorem AttachDisks_requests_witness :
    (∀ task ∈ (runPool quotaService [1, 0, 1, 0]
        (demoTester.AttachDisks "inst" [⟨"gvb-abcd-0", "u0"⟩, ⟨"gvb-abcd-1", "u1"⟩],
          ⟨0, []⟩)).1, task = Task.done) ∧
    ∃ ext, (runPool quotaService [1, 0, 1, 0]
        (demoTester.AttachDisks "inst" [⟨"gvb-abcd-0", "u0"⟩, ⟨"gvb-abcd-1", "u1"⟩],
          ⟨0, []⟩)).2.trace = [] ++ ext ∧
      (attachCalls ext).Perm
        [("p", "z", "inst", ⟨"u0", "gvb-abcd-0", "SCSI"⟩),
         ("p", "z", "inst", ⟨"u1", "gvb-abcd-1", "SCSI"⟩)] :=
  have hdone : ∀ task ∈ (runPool quotaService [1, 0, 1, 0]
      (demoTester.AttachDisks "inst" [⟨"gvb-abcd-0", "u0"⟩, ⟨"gvb-abcd-1", "u1"⟩],
        ⟨0, []⟩)).1, task = Task.done := by
    simp [runPool, stepPool, tester.AttachDisks, tester.attachTask, Task.step, quotaService]
  ⟨hdone,
    (AttachDisks_requests quotaService demoTester "inst"
      [⟨"gvb-abcd-0", "u0"⟩, ⟨"gvb-abcd-1", "u1"⟩] [1, 0, 1, 0] ⟨0, []⟩).2.2.elim
      (fun ext h => ⟨ext, h.1, (h.2.2 hdone).1⟩)⟩

/-- The trace of the goroutine of one disk, run to its end: the attach call, then the
failure record if the call returned an error, then the record "Attached disk" in
both cases. -/
theorem attachTask_trace {σ : Type} (S : Service σ) (t : tester) (instanceName : String)
    (d : disk) (w : World σ) :
    (Task.run S (t.attachTask instanceName d) w).trace =
      w.trace ++
        Event.instancesAttachDisk t.project t.zone instanceName ⟨d.url, d.name, "SCSI"⟩
          (S.instancesAttachDisk w.svc t.project t.zone instanceName
            ⟨d.url, d.name, "SCSI"⟩).1 ::
        ((match (S.instancesAttachDisk w.svc t.project t.zone instanceName
            ⟨d.url, d.name, "SCSI"⟩).1 with
          | Reply.err e =>
            [Event.log Level.error "Disk attachment failed" (t.log ++ [Field.error e])]
          | Reply.ok _ => []) ++
        [Event.log Level.info "Attached disk"
          (t.log ++ [Field.string "instance" instanceName, Field.string "url" d.url,
            Field.string "name" d.name])]) := by
  simp only [tester.attachTask, Task.run, attachRequest, interfaceSCSI, Logger.With]
  split <;> simp_all [Task.run, World.emit]

/-- C9, at the failing input: the attach call returns an error, and the goroutine logs
the failure record and then the success record "Attached disk". -/
theorem attach_failure_logged_as_attached :
    (countdownService.instancesAttachDisk 0 "p" "z" "inst" ⟨"u0", "gvb-abcd-0", "SCSI"⟩).1 =
      Reply.err "quota exceeded" ∧
    logRecords (Task.run countdownService
      (demoTester.attachTask "inst" ⟨"gvb-abcd-0", "u0"⟩) ⟨0, []⟩).trace =
      [(Level.error, "Disk attachment failed"), (Level.info, "Attached disk")] := by
  constructor
  · rfl
  · rw [attachTask_trace]
    simp [countdownService, logRecords]

/-! ## Lemmas on the loop of MountDisks -/

theorem step_error {ω : Type} (O : OS ω) (log : Logger) (systemd : Bool) (err : String)
    (st : Watcher ω) :
    (MountDisks.step O log systemd (Msg.error err) st).seen = st.seen ∧
    (MountDisks.step O log systemd (Msg.error err) st).os = st.os ∧
    MountDisks.emitted O log systemd (Msg.error err) st =
      [Event.log Level.error "Error watching disks" (log ++ [Field.error err])] := by
  simp [MountDisks.step, MountDisks.emitted, Watcher.emit]

theorem handle_not_create {ω : Type} (O : OS ω) (log : Logger) (systemd : Bool)
    (event : FsEvent) (st : Watcher ω) (h : event.isCreate = false) :
    MountDisks.handle O log systemd event st = st := by
  simp only [FsEvent.isCreate, decide_eq_false_iff_not] at h
  simp [MountDisks.handle, h]

/-- The keys of `seen` after one creation event. -/
theorem handle_seen {ω : Type} (O : OS ω) (log : Logger) (systemd : Bool)
    (event : FsEvent) (st : Watcher ω) (h : event.isCreate = true) :
    (MountDisks.handle O log systemd event st).seen =
      if (O.evalSymlinks st.os event.Name).1.1 ∈ st.seen then st.seen
      else (O.evalSymlinks st.os event.Name).1.1 :: st.seen := by
  simp only [FsEvent.isCreate, decide_eq_true_eq] at h
  simp only [MountDisks.handle, h, ne_eq, not_true_eq_false, if_false]
  by_cases hs : (O.evalSymlinks st.os event.Name).1.1 ∈ st.seen
  · by_cases he : (O.evalSymlinks st.os event.Name).1.2 = none <;> simp [Watcher.emit, hs, he]
  · by_cases he : (O.evalSymlinks st.os event.Name).1.2 = none <;>
      simp only [Watcher.emit, hs, he, if_false, if_true, not_true_eq_false, not_false_eq_true] <;>
      (repeat' split) <;> rfl


theorem handle_attempts {ω : Type} (O : OS ω) (log : Logger) (systemd : Bool)
    (event : FsEvent) (st : Watcher ω) (h : event.isCreate = true) :
    (MountDisks.emitted O log systemd (Msg.event event) st).filter Event.isAttempt =
      if (O.evalSymlinks st.os event.Name).1.1 ∈ st.seen then []
      else MountDisks.expectedAttempts O systemd event.Name
        (O.evalSymlinks st.os event.Name).2 := by
  simp only [FsEvent.isCreate, decide_eq_true_eq] at h
  simp only [MountDisks.emitted, MountDisks.step, MountDisks.handle, h, ne_eq,
    not_true_eq_false, if_false, MountDisks.expectedAttempts]
  by_cases hs : (O.evalSymlinks st.os event.Name).1.1 ∈ st.seen
  · by_cases he : (O.evalSymlinks st.os event.Name).1.2 = none <;>
      simp [Watcher.emit, hs, he, Event.isAttempt]
  · by_cases he : (O.evalSymlinks st.os event.Name).1.2 = none <;>
      simp only [Watcher.emit, hs, he, if_false, if_true, not_true_eq_false,
        not_false_eq_true] <;>
      cases hm : (O.mkdir (O.evalSymlinks st.os event.Name).2
        (MountDisks.mountpoint event.Name) 448).1 <;>
      simp only [if_true, if_false, reduceCtorEq] <;>
      try (simp [Event.isAttempt]; done)
    all_goals
      cases hf : (O.run (O.mkdir (O.evalSymlinks st.os event.Name).2
        (MountDisks.mountpoint event.Name) 448).2 (MountDisks.fmtcmd event.Name)).1 <;>
      simp only [if_true, if_false, reduceCtorEq] <;>
      try (simp [Event.isAttempt]; done)
    all_goals
      cases hx : (O.run (O.run (O.mkdir (O.evalSymlinks st.os event.Name).2
        (MountDisks.mountpoint event.Name) 448).2 (MountDisks.fmtcmd event.Name)).2
        (MountDisks.mntcmd systemd event.Name (MountDisks.mountpoint event.Name))).1 <;>
      simp [Event.isAttempt, hx]

theorem handle_trace_ext {ω : Type} (O : OS ω) (log : Logger) (systemd : Bool)
    (event : FsEvent) (st : Watcher ω) :
    ∃ ext, (MountDisks.handle O log systemd event st).trace = st.trace ++ ext := by
  cases hc : event.isCreate with
  | false => exact ⟨[], by simp [handle_not_create O log systemd event st hc]⟩
  | true =>
    simp only [FsEvent.isCreate, decide_eq_true_eq] at hc
    simp only [MountDisks.handle, hc, ne_eq, not_true_eq_false, if_false]
    by_cases hs : (O.evalSymlinks st.os event.Name).1.1 ∈ st.seen
    · by_cases he : (O.evalSymlinks st.os event.Name).1.2 = none <;>
        simp only [Watcher.emit, hs, he, if_false, if_true, not_true_eq_false,
          not_false_eq_true, List.append_assoc] <;>
        exact ⟨_, rfl⟩
    · by_cases he : (O.evalSymlinks st.os event.Name).1.2 = none <;>
        simp only [Watcher.emit, hs, he, if_false, if_true, not_true_eq_false,
          not_false_eq_true, List.append_assoc] <;>
        cases hm : (O.mkdir (O.evalSymlinks st.os event.Name).2
          (MountDisks.mountpoint event.Name) 448).1 <;>
        simp only [] <;>
        try (exact ⟨_, rfl⟩)
      all_goals
        cases hf : (O.run (O.mkdir (O.evalSymlinks st.os event.Name).2
          (MountDisks.mountpoint event.Name) 448).2 (MountDisks.fmtcmd event.Name)).1 <;>
        simp only [] <;>
        try (exact ⟨_, rfl⟩)
      all_goals
        cases hx : (O.run (O.run (O.mkdir (O.evalSymlinks st.os event.Name).2
          (MountDisks.mountpoint event.Name) 448).2 (MountDisks.fmtcmd event.Name)).2
          (MountDisks.mntcmd systemd event.Name (MountDisks.mountpoint event.Name))).1 <;>
        exact ⟨_, rfl⟩

theorem step_trace {ω : Type} (O : OS ω) (log : Logger) (systemd : Bool) (m : Msg)
    (st : Watcher ω) :
    (MountDisks.step O log systemd m st).trace =
      st.trace ++ MountDisks.emitted O log systemd m st := by
  have key : ∃ ext, (MountDisks.step O log systemd m st).trace = st.trace ++ ext := by
    cases m with
    | error err => exact ⟨_, rfl⟩
    | event event => exact handle_trace_ext O log systemd event st
  obtain ⟨ext, hext⟩ := key
  rw [MountDisks.emitted, hext, List.drop_left]

theorem step_seen_iff {ω : Type} (O : OS ω) (log : Logger) (systemd : Bool) (m : Msg)
    (st : Watcher ω) (T : String) :
    T ∈ (MountDisks.step O log systemd m st).seen ↔
      T ∈ st.seen ∨ MountDisks.resolvesTo O m st T = true := by
  cases m with
  | error err => simp [MountDisks.step, Watcher.emit, MountDisks.resolvesTo]
  | event event =>
    cases hc : event.isCreate with
    | false => simp [MountDisks.step, handle_not_create O log systemd event st hc,
        MountDisks.resolvesTo, hc]
    | true =>
      simp only [MountDisks.step, handle_seen O log systemd event st hc, MountDisks.resolvesTo,
        hc, Bool.true_and, decide_eq_true_eq]
      split
      · constructor
        · exact Or.inl
        · rintro (h | h)
          · exact h
          · rw [← h]; assumption
      · simp only [List.mem_cons]
        constructor
        · rintro (h | h)
          · exact Or.inr h.symm
          · exact Or.inl h
        · rintro (h | h)
          · exact Or.inr h
          · exact Or.inl h.symm

theorem loop_seen_iff {ω : Type} (O : OS ω) (log : Logger) (systemd : Bool) (T : String)
    (msgs : List Msg) :
    ∀ st : Watcher ω, T ∈ (MountDisks.loop O log systemd msgs st).seen ↔
      T ∈ st.seen ∨ MountDisks.everResolved O log systemd T msgs st = true := by
  induction msgs with
  | nil => intro st; simp [MountDisks.loop, MountDisks.everResolved]
  | cons m ms ih =>
    intro st
    simp only [MountDisks.loop, MountDisks.everResolved, ih, step_seen_iff, Bool.or_eq_true,
      or_assoc]

theorem attempts_of_seen {ω : Type} (O : OS ω) (log : Logger) (systemd : Bool) (m : Msg)
    (st : Watcher ω) (T : String) (hT : T ∈ st.seen)
    (hres : MountDisks.resolvesTo O m st T = true) :
    (MountDisks.emitted O log systemd m st).filter Event.isAttempt = [] := by
  cases m with
  | error err => simp [MountDisks.resolvesTo] at hres
  | event event =>
    simp only [MountDisks.resolvesTo, Bool.and_eq_true, decide_eq_true_eq] at hres
    rw [handle_attempts O log systemd event st hres.1, hres.2, if_pos hT]

theorem attemptsFor_of_seen {ω : Type} (O : OS ω) (log : Logger) (systemd : Bool) (T : String)
    (msgs : List Msg) :
    ∀ st : Watcher ω, T ∈ st.seen → MountDisks.attemptsFor O log systemd T msgs st = [] := by
  induction msgs with
  | nil => intro st _; rfl
  | cons m ms ih =>
    intro st hT
    simp only [MountDisks.attemptsFor]
    rw [ih _ ((step_seen_iff O log systemd m st T).mpr (Or.inl hT))]
    split
    · rename_i hres
      simp [attempts_of_seen O log systemd m st T hT hres]
    · rfl

theorem attemptsFor_append {ω : Type} (O : OS ω) (log : Logger) (systemd : Bool) (T : String)
    (pre post : List Msg) :
    ∀ st : Watcher ω, MountDisks.attemptsFor O log systemd T (pre ++ post) st =
      MountDisks.attemptsFor O log systemd T pre st ++
        MountDisks.attemptsFor O log systemd T post (MountDisks.loop O log systemd pre st) := by
  induction pre with
  | nil => intro st; rfl
  | cons m ms ih =>
    intro st
    rw [List.cons_append, MountDisks.attemptsFor, MountDisks.attemptsFor, MountDisks.loop, ih,
      List.append_assoc]

theorem attemptsFor_none {ω : Type} (O : OS ω) (log : Logger) (systemd : Bool) (T : String)
    (msgs : List Msg) :
    ∀ st : Watcher ω, MountDisks.everResolved O log systemd T msgs st = false →
      MountDisks.attemptsFor O log systemd T msgs st = [] := by
  induction msgs with
  | nil => intro st _; rfl
  | cons m ms ih =>
    intro st h
    simp only [MountDisks.everResolved, Bool.or_eq_false_iff] at h
    simp [MountDisks.attemptsFor, h.1, ih _ h.2]

/-- The attempts for `T` over a run are those of the first message resolving to `T`. -/
theorem attemptsFor_first {ω : Type} (O : OS ω) (log : Logger) (systemd : Bool) (T : String)
    (pre : List Msg) (m : Msg) (post : List Msg) (st : Watcher ω)
    (hpre : MountDisks.everResolved O log systemd T pre st = false)
    (hres : MountDisks.resolvesTo O m (MountDisks.loop O log systemd pre st) T = true) :
    MountDisks.attemptsFor O log systemd T (pre ++ m :: post) st =
      (MountDisks.emitted O log systemd m (MountDisks.loop O log systemd pre st)).filter
        Event.isAttempt := by
  rw [attemptsFor_append, attemptsFor_none O log systemd T pre st hpre]
  simp only [MountDisks.attemptsFor, hres, if_true, List.nil_append]
  rw [attemptsFor_of_seen O log systemd T post _
    ((step_seen_iff O log systemd m _ T).mpr (Or.inr hres))]
  simp

theorem everResolved_first {ω : Type} (O : OS ω) (log : Logger) (systemd : Bool) (T : String)
    (msgs : List Msg) :
    ∀ st : Watcher ω, MountDisks.everResolved O log systemd T msgs st = true →
      ∃ pre m post, msgs = pre ++ m :: post ∧
        MountDisks.everResolved O log systemd T pre st = false ∧
        MountDisks.resolvesTo O m (MountDisks.loop O log systemd pre st) T = true := by
  induction msgs with
  | nil => intro st h; simp [MountDisks.everResolved] at h
  | cons m ms ih =>
    intro st h
    cases hres : MountDisks.resolvesTo O m st T with
    | true => exact ⟨[], m, ms, rfl, rfl, hres⟩
    | false =>
      simp only [MountDisks.everResolved, hres, Bool.false_or] at h
      obtain ⟨pre, m', post, rfl, hpre, hm'⟩ := ih _ h
      exact ⟨m :: pre, m', post, rfl, by simp [MountDisks.everResolved, hres, hpre], hm'⟩

theorem isMount_mntcmd (systemd : Bool) (disk mp : String) (err : GoError) :
    (Event.run (MountDisks.mntcmd systemd disk mp) err).isMount = true := by
  cases systemd <;> simp [MountDisks.mntcmd, Event.isMount]

theorem isFormat_mntcmd (systemd : Bool) (disk mp : String) (err : GoError) :
    (Event.run (MountDisks.mntcmd systemd disk mp) err).isFormat = false := by
  cases systemd <;> simp [MountDisks.mntcmd, Event.isFormat]

theorem isFormat_fmtcmd (disk : String) (err : GoError) :
    (Event.run (MountDisks.fmtcmd disk) err).isFormat = true := by
  simp [MountDisks.fmtcmd, Event.isFormat]

theorem isMount_fmtcmd (disk : String) (err : GoError) :
    (Event.run (MountDisks.fmtcmd disk) err).isMount = false := by
  simp [MountDisks.fmtcmd, Event.isMount]

theorem isFormat_mkdir (path : String) (perm : Nat) (err : GoError) :
    (Event.mkdir path perm err).isFormat = false := rfl

theorem isMount_mkdir (path : String) (perm : Nat) (err : GoError) :
    (Event.mkdir path perm err).isMount = false := rfl

theorem expectedAttempts_counts {ω : Type} (O : OS ω) (systemd : Bool) (disk : String)
    (os : ω) :
    (MountDisks.expectedAttempts O systemd disk os).countP Event.isFormat ≤ 1 ∧
    (MountDisks.expectedAttempts O systemd disk os).countP Event.isMount ≤ 1 := by
  simp only [MountDisks.expectedAttempts]
  split
  · split <;>
      simp [List.countP_cons, isFormat_fmtcmd, isMount_fmtcmd, isFormat_mntcmd, isMount_mntcmd,
        isFormat_mkdir, isMount_mkdir]
  · simp [List.countP_cons, isFormat_mkdir, isMount_mkdir]

/-- When mkdir and format succeed, the expected attempts hold one format run and one mount
run. -/
theorem expectedAttempts_success {ω : Type} (O : OS ω) (systemd : Bool) (disk : String)
    (os : ω) (hm : (O.mkdir os (MountDisks.mountpoint disk) 448).1 = none)
    (hf : (O.run (O.mkdir os (MountDisks.mountpoint disk) 448).2
      (MountDisks.fmtcmd disk)).1 = none) :
    (MountDisks.expectedAttempts O systemd disk os).countP Event.isFormat = 1 ∧
    (MountDisks.expectedAttempts O systemd disk os).countP Event.isMount = 1 := by
  simp [MountDisks.expectedAttempts, hm, hf, List.countP_cons, isFormat_fmtcmd, isMount_fmtcmd,
    isFormat_mntcmd, isMount_mntcmd, isFormat_mkdir, isMount_mkdir]


theorem isAttempt_of_isFormat (e : Event) (h : e.isFormat = true) : e.isAttempt = true := by
  cases e <;> simp_all [Event.isFormat, Event.isAttempt]

theorem isAttempt_of_isMount (e : Event) (h : e.isMount = true) : e.isAttempt = true := by
  cases e <;> simp_all [Event.isMount, Event.isAttempt]

theorem fmtcmd_ne_mntcmd (systemd : Bool) (disk disk2 mp : String) :
    MountDisks.fmtcmd disk ≠ MountDisks.mntcmd systemd disk2 mp := by
  cases systemd <;> simp [MountDisks.fmtcmd, MountDisks.mntcmd]

/-- The three shapes of the attempts of one creation event with a new target. -/
theorem expectedAttempts_cases {ω : Type} (O : OS ω) (systemd : Bool) (disk : String)
    (os : ω) :
    (∃ err, MountDisks.expectedAttempts O systemd disk os =
      [Event.mkdir (MountDisks.mountpoint disk) 448 (some err)]) ∨
    (∃ err, MountDisks.expectedAttempts O systemd disk os =
      [Event.mkdir (MountDisks.mountpoint disk) 448 none,
        Event.run (MountDisks.fmtcmd disk) (some err)]) ∨
    (∃ x, MountDisks.expectedAttempts O systemd disk os =
      [Event.mkdir (MountDisks.mountpoint disk) 448 none,
        Event.run (MountDisks.fmtcmd disk) none,
        Event.run (MountDisks.mntcmd systemd disk (MountDisks.mountpoint disk)) x]) := by
  simp only [MountDisks.expectedAttempts]
  cases hm : (O.mkdir os (MountDisks.mountpoint disk) 448).1 with
  | some err => exact Or.inl ⟨err, by simp⟩
  | none =>
    cases hf : (O.run (O.mkdir os (MountDisks.mountpoint disk) 448).2
        (MountDisks.fmtcmd disk)).1 with
    | some err => exact Or.inr (Or.inl ⟨err, by simp⟩)
    | none =>
      exact Or.inr (Or.inr ⟨(O.run (O.run (O.mkdir os (MountDisks.mountpoint disk) 448).2
        (MountDisks.fmtcmd disk)).2
        (MountDisks.mntcmd systemd disk (MountDisks.mountpoint disk))).1, by simp⟩)

/-- The attempts of one creation event, whatever the state: none, or one of the three
shapes. -/
theorem attempts_cases {ω : Type} (O : OS ω) (log : Logger) (systemd : Bool)
    (event : FsEvent) (st : Watcher ω) (hc : event.isCreate = true) :
    (MountDisks.emitted O log systemd (Msg.event event) st).filter Event.isAttempt = [] ∨
    (∃ err, (MountDisks.emitted O log systemd (Msg.event event) st).filter Event.isAttempt =
      [Event.mkdir (MountDisks.mountpoint event.Name) 448 (some err)]) ∨
    (∃ err, (MountDisks.emitted O log systemd (Msg.event event) st).filter Event.isAttempt =
      [Event.mkdir (MountDisks.mountpoint event.Name) 448 none,
        Event.run (MountDisks.fmtcmd event.Name) (some err)]) ∨
    (∃ x, (MountDisks.emitted O log systemd (Msg.event event) st).filter Event.isAttempt =
      [Event.mkdir (MountDisks.mountpoint event.Name) 448 none,
        Event.run (MountDisks.fmtcmd event.Name) none,
        Event.run (MountDisks.mntcmd systemd event.Name (MountDisks.mountpoint event.Name)) x]) := by
  rw [handle_attempts O log systemd event st hc]
  split
  · exact Or.inl rfl
  · exact Or.inr (expectedAttempts_cases O systemd event.Name _)

theorem loop_trace_ext {ω : Type} (O : OS ω) (log : Logger) (systemd : Bool)
    (msgs : List Msg) :
    ∀ st : Watcher ω, ∃ ext, (MountDisks.loop O log systemd msgs st).trace = st.trace ++ ext := by
  induction msgs with
  | nil => intro st; exact ⟨[], by simp [MountDisks.loop]⟩
  | cons m ms ih =>
    intro st
    obtain ⟨ext, hext⟩ := ih (MountDisks.step O log systemd m st)
    exact ⟨MountDisks.emitted O log systemd m st ++ ext, by
      rw [MountDisks.loop, hext, step_trace, List.append_assoc]⟩

/-- C6: for every creation event handled by the loop, in every state: the format command is
run only if mkdir succeeded, and the mount command only if the format command
succeeded; when mkdir fails no command is run, when the format command fails the
mount command is not run; and the loop goes on with the next message, whose events
follow in the trace. -/
theorem MountDisks_steps_gated {ω : Type} (O : OS ω) (log : Logger) (systemd : Bool)
    (event : FsEvent) (st : Watcher ω) (hc : event.isCreate = true) :
    ((∃ e ∈ MountDisks.emitted O log systemd (Msg.event event) st, e.isFormat = true) →
      Event.mkdir (MountDisks.mountpoint event.Name) 448 none ∈
        MountDisks.emitted O log systemd (Msg.event event) st) ∧
    ((∃ e ∈ MountDisks.emitted O log systemd (Msg.event event) st, e.isMount = true) →
      Event.run (MountDisks.fmtcmd event.Name) none ∈
        MountDisks.emitted O log systemd (Msg.event event) st) ∧
    (∀ err, Event.mkdir (MountDisks.mountpoint event.Name) 448 (some err) ∈
        MountDisks.emitted O log systemd (Msg.event event) st →
      ∀ e ∈ MountDisks.emitted O log systemd (Msg.event event) st,
        e.isFormat = false ∧ e.isMount = false) ∧
    (∀ err, Event.run (MountDisks.fmtcmd event.Name) (some err) ∈
        MountDisks.emitted O log systemd (Msg.event event) st →
      ∀ e ∈ MountDisks.emitted O log systemd (Msg.event event) st, e.isMount = false) ∧
    (∀ m rest, ∃ ext,
      (MountDisks.loop O log systemd (Msg.event event :: m :: rest) st).trace =
        st.trace ++ MountDisks.emitted O log systemd (Msg.event event) st ++
          MountDisks.emitted O log systemd m
            (MountDisks.step O log systemd (Msg.event event) st) ++ ext) := by
  have hmem : ∀ e, e.isAttempt = true →
      (e ∈ MountDisks.emitted O log systemd (Msg.event event) st ↔
        e ∈ (MountDisks.emitted O log systemd (Msg.event event) st).filter Event.isAttempt) := by
    intro e he
    simp [List.mem_filter, he]
  have hfm := fmtcmd_ne_mntcmd systemd event.Name event.Name (MountDisks.mountpoint event.Name)
  refine ⟨?_, ?_, ?_, ?_, ?_⟩
  · rintro ⟨e, he, hf⟩
    rw [hmem e (isAttempt_of_isFormat e hf)] at he
    rw [hmem (Event.mkdir (MountDisks.mountpoint event.Name) 448 none) rfl]
    rcases attempts_cases O log systemd event st hc with h | ⟨err, h⟩ | ⟨err, h⟩ | ⟨x, h⟩ <;>
      rw [h] at he ⊢ <;> simp at he ⊢
    subst he
    simp [isFormat_mkdir] at hf
  · rintro ⟨e, he, hf⟩
    rw [hmem e (isAttempt_of_isMount e hf)] at he
    rw [hmem (Event.run (MountDisks.fmtcmd event.Name) none) rfl]
    rcases attempts_cases O log systemd event st hc with h | ⟨err, h⟩ | ⟨err, h⟩ | ⟨x, h⟩ <;>
      rw [h] at he ⊢ <;> simp at he ⊢
    · subst he
      simp [isMount_mkdir] at hf
    · rcases he with rfl | rfl
      · simp [isMount_mkdir] at hf
      · simp [isMount_fmtcmd] at hf
  · intro err herr e he
    rw [hmem (Event.mkdir (MountDisks.mountpoint event.Name) 448 (some err)) rfl] at herr
    have key : ∀ e' ∈ (MountDisks.emitted O log systemd (Msg.event event) st).filter
        Event.isAttempt, e'.isFormat = false ∧ e'.isMount = false := by
      rcases attempts_cases O log systemd event st hc with h | ⟨err, h⟩ | ⟨err, h⟩ | ⟨x, h⟩ <;>
        rw [h] at herr ⊢ <;> simp at herr ⊢
      exact ⟨rfl, rfl⟩
    constructor
    · by_contra hf
      have hf' : e.isFormat = true := by simpa using hf
      have := (key e ((hmem e (isAttempt_of_isFormat e hf')).mp he)).1
      simp [hf'] at this
    · by_contra hf
      have hf' : e.isMount = true := by simpa using hf
      have := (key e ((hmem e (isAttempt_of_isMount e hf')).mp he)).2
      simp [hf'] at this
  · intro err herr e he
    rw [hmem (Event.run (MountDisks.fmtcmd event.Name) (some err)) rfl] at herr
    have key : ∀ e' ∈ (MountDisks.emitted O log systemd (Msg.event event) st).filter
        Event.isAttempt, e'.isMount = false := by
      rcases attempts_cases O log systemd event st hc with h | ⟨err, h⟩ | ⟨err, h⟩ | ⟨x, h⟩ <;>
        rw [h] at herr ⊢ <;> simp [hfm] at herr ⊢
      exact ⟨rfl, isMount_fmtcmd _ _⟩
    by_contra hf
    have hf' : e.isMount = true := by simpa using hf
    have := key e ((hmem e (isAttempt_of_isMount e hf')).mp he)
    simp [hf'] at this
  · intro m rest
    obtain ⟨ext, hext⟩ := loop_trace_ext O log systemd rest
      (MountDisks.step O log systemd m (MountDisks.step O log systemd (Msg.event event) st))
    exact ⟨ext, by rw [MountDisks.loop, MountDisks.loop, hext, step_trace, step_trace]⟩


/-- C5: over every run of the loop from its initial state and for every target `T`: a
creation event resolving to `T` after an earlier one did attempts neither mkdir nor any
command; the first creation event resolving to `T` attempts mkdir, then format if
mkdir succeeded, then mount if format succeeded, and these are all the attempts for
`T`; so the format command and the mount command are each run at most once for `T`,
and exactly once when the mkdir and the format of the first event succeed. -/
theorem MountDisks_once {ω : Type} (O : OS ω) (log : Logger) (systemd : Bool) (os : ω)
    (msgs : List Msg) (T : String) :
    (∀ pre m post, msgs = pre ++ m :: post →
      MountDisks.everResolved O log systemd T pre (Watcher.fresh os) = true →
      MountDisks.resolvesTo O m (MountDisks.loop O log systemd pre (Watcher.fresh os)) T = true →
      (MountDisks.emitted O log systemd m
        (MountDisks.loop O log systemd pre (Watcher.fresh os))).filter Event.isAttempt = []) ∧
    (∀ pre event post, msgs = pre ++ Msg.event event :: post →
      MountDisks.everResolved O log systemd T pre (Watcher.fresh os) = false →
      MountDisks.resolvesTo O (Msg.event event)
        (MountDisks.loop O log systemd pre (Watcher.fresh os)) T = true →
      (MountDisks.emitted O log systemd (Msg.event event)
        (MountDisks.loop O log systemd pre (Watcher.fresh os))).filter Event.isAttempt =
        MountDisks.expectedAttempts O systemd event.Name
          (O.evalSymlinks (MountDisks.loop O log systemd pre (Watcher.fresh os)).os
            event.Name).2 ∧
      MountDisks.attemptsFor O log systemd T msgs (Watcher.fresh os) =
        MountDisks.expectedAttempts O systemd event.Name
          (O.evalSymlinks (MountDisks.loop O log systemd pre (Watcher.fresh os)).os
            event.Name).2) ∧
    (MountDisks.attemptsFor O log systemd T msgs (Watcher.fresh os)).countP Event.isFormat ≤ 1 ∧
    (MountDisks.attemptsFor O log systemd T msgs (Watcher.fresh os)).countP Event.isMount ≤ 1 ∧
    (∀ pre event post, msgs = pre ++ Msg.event event :: post →
      MountDisks.everResolved O log systemd T pre (Watcher.fresh os) = false →
      MountDisks.resolvesTo O (Msg.event event)
        (MountDisks.loop O log systemd pre (Watcher.fresh os)) T = true →
      (O.mkdir (O.evalSymlinks (MountDisks.loop O log systemd pre (Watcher.fresh os)).os
        event.Name).2 (MountDisks.mountpoint event.Name) 448).1 = none →
      (O.run (O.mkdir (O.evalSymlinks (MountDisks.loop O log systemd pre (Watcher.fresh os)).os
        event.Name).2 (MountDisks.mountpoint event.Name) 448).2
        (MountDisks.fmtcmd event.Name)).1 = none →
      (MountDisks.attemptsFor O log systemd T msgs (Watcher.fresh os)).countP Event.isFormat = 1 ∧
      (MountDisks.attemptsFor O log systemd T msgs (Watcher.fresh os)).countP Event.isMount = 1) := by
  have hfirst : ∀ pre event post, msgs = pre ++ Msg.event event :: post →
      MountDisks.everResolved O log systemd T pre (Watcher.fresh os) = false →
      MountDisks.resolvesTo O (Msg.event event)
        (MountDisks.loop O log systemd pre (Watcher.fresh os)) T = true →
      (MountDisks.emitted O log systemd (Msg.event event)
        (MountDisks.loop O log systemd pre (Watcher.fresh os))).filter Event.isAttempt =
        MountDisks.expectedAttempts O systemd event.Name
          (O.evalSymlinks (MountDisks.loop O log systemd pre (Watcher.fresh os)).os
            event.Name).2 ∧
      MountDisks.attemptsFor O log systemd T msgs (Watcher.fresh os) =
        MountDisks.expectedAttempts O systemd event.Name
          (O.evalSymlinks (MountDisks.loop O log systemd pre (Watcher.fresh os)).os
            event.Name).2 := by
    intro pre event post hmsgs hpre hres
    have hnot : T ∉ (MountDisks.loop O log systemd pre (Watcher.fresh os)).seen := by
      rw [loop_seen_iff, hpre]
      simp [Watcher.fresh]
    have hres' := hres
    simp only [MountDisks.resolvesTo, Bool.and_eq_true, decide_eq_true_eq] at hres'
    have hatt := handle_attempts O log systemd event
      (MountDisks.loop O log systemd pre (Watcher.fresh os)) hres'.1
    rw [hres'.2, if_neg hnot] at hatt
    exact ⟨hatt, by rw [hmsgs, attemptsFor_first O log systemd T pre _ post _ hpre hres, hatt]⟩
  refine ⟨?_, hfirst, ?_, ?_, ?_⟩
  · intro pre m post _ hpre hres
    exact attempts_of_seen O log systemd m _ T
      ((loop_seen_iff O log systemd T pre _).mpr (Or.inr hpre)) hres
  · cases hev : MountDisks.everResolved O log systemd T msgs (Watcher.fresh os) with
    | false => simp [attemptsFor_none O log systemd T msgs _ hev]
    | true =>
      obtain ⟨pre, m, post, hmsgs, hpre, hres⟩ := everResolved_first O log systemd T msgs _ hev
      cases m with
      | error err => simp [MountDisks.resolvesTo] at hres
      | event event =>
        rw [(hfirst pre event post hmsgs hpre hres).2]
        exact (expectedAttempts_counts O systemd event.Name _).1
  · cases hev : MountDisks.everResolved O log systemd T msgs (Watcher.fresh os) with
    | false => simp [attemptsFor_none O log systemd T msgs _ hev]
    | true =>
      obtain ⟨pre, m, post, hmsgs, hpre, hres⟩ := everResolved_first O log systemd T msgs _ hev
      cases m with
      | error err => simp [MountDisks.resolvesTo] at hres
      | event event =>
        rw [(hfirst pre event post hmsgs hpre hres).2]
        exact (expectedAttempts_counts O systemd event.Name _).2
  · intro pre event post hmsgs hpre hres hm hf
    rw [(hfirst pre event post hmsgs hpre hres).2]
    exact expectedAttempts_success O systemd event.Name _ hm hf

/-- What a creation event whose target is already in `seen` appends to the trace: the
resolution, the log records, and the record of the skip. -/
theorem handle_emitted_seen {ω : Type} (O : OS ω) (log : Logger) (systemd : Bool)
    (event : FsEvent) (st : Watcher ω) (hc : event.isCreate = true)
    (hs : (O.evalSymlinks st.os event.Name).1.1 ∈ st.seen) :
    Event.log Level.info "Ignoring previously processed disk"
      (log ++ [Field.string "disk" event.Name,
        Field.string "mountpoint" (MountDisks.mountpoint event.Name),
        Field.string "target" (O.evalSymlinks st.os event.Name).1.1]) ∈
      MountDisks.emitted O log systemd (Msg.event event) st := by
  simp only [FsEvent.isCreate, decide_eq_true_eq] at hc
  simp only [MountDisks.emitted, MountDisks.step, MountDisks.handle, hc, ne_eq,
    not_true_eq_false, if_false]
  by_cases he : (O.evalSymlinks st.os event.Name).1.2 = none <;>
    simp [Watcher.emit, hs, he, Logger.With]

/-- C10, as amended: the dedup key of an event whose symlink resolution fails is the
empty string returned by the failed resolution, not the path of the event. In a run of
the loop from its initial state, let `e1` be the first creation event whose key is the
empty string, its resolution failing, and `e2` a later creation event whose resolution
fails too. Then the key stored for `e1` is the empty string, mkdir of
`/mnt/<base of the path of e1>` is attempted, and `e2` is skipped as previously
processed: neither mkdir nor any command is attempted for it. -/
theorem MountDisks_unresolved_dedup {ω : Type} (O : OS ω) (log : Logger) (systemd : Bool)
    (os : ω) (pre mid : List Msg) (e1 e2 : FsEvent) (err1 err2 : String)
    (hc1 : e1.isCreate = true) (hc2 : e2.isCreate = true)
    (hpre : MountDisks.everResolved O log systemd "" pre (Watcher.fresh os) = false)
    (h1 : (O.evalSymlinks (MountDisks.loop O log systemd pre (Watcher.fresh os)).os e1.Name).1 =
      ("", some err1))
    (h2 : (O.evalSymlinks (MountDisks.loop O log systemd (pre ++ Msg.event e1 :: mid)
      (Watcher.fresh os)).os e2.Name).1 = ("", some err2)) :
    (MountDisks.step O log systemd (Msg.event e1)
      (MountDisks.loop O log systemd pre (Watcher.fresh os))).seen =
        "" :: (MountDisks.loop O log systemd pre (Watcher.fresh os)).seen ∧
    (∃ e, Event.mkdir (filepath.Join ["/mnt", filepath.Base e1.Name]) 448 e ∈
      MountDisks.emitted O log systemd (Msg.event e1)
        (MountDisks.loop O log systemd pre (Watcher.fresh os))) ∧
    (MountDisks.emitted O log systemd (Msg.event e2)
      (MountDisks.loop O log systemd (pre ++ Msg.event e1 :: mid) (Watcher.fresh os))).filter
        Event.isAttempt = [] ∧
    Event.log Level.info "Ignoring previously processed disk"
      (log ++ [Field.string "disk" e2.Name,
        Field.string "mountpoint" (filepath.Join ["/mnt", filepath.Base e2.Name]),
        Field.string "target" ""]) ∈
      MountDisks.emitted O log systemd (Msg.event e2)
        (MountDisks.loop O log systemd (pre ++ Msg.event e1 :: mid) (Watcher.fresh os)) := by
  have hnot : "" ∉ (MountDisks.loop O log systemd pre (Watcher.fresh os)).seen := by
    rw [loop_seen_iff, hpre]
    simp [Watcher.fresh]
  have ht1 : (O.evalSymlinks (MountDisks.loop O log systemd pre (Watcher.fresh os)).os
      e1.Name).1.1 = "" := by rw [h1]
  have ht2 : (O.evalSymlinks (MountDisks.loop O log systemd (pre ++ Msg.event e1 :: mid)
      (Watcher.fresh os)).os e2.Name).1.1 = "" := by rw [h2]
  have hres1 : MountDisks.resolvesTo O (Msg.event e1)
      (MountDisks.loop O log systemd pre (Watcher.fresh os)) "" = true := by
    simp [MountDisks.resolvesTo, hc1, ht1]
  have hseen2 : "" ∈ (MountDisks.loop O log systemd (pre ++ Msg.event e1 :: mid)
      (Watcher.fresh os)).seen := by
    rw [loop_seen_iff]
    right
    have : ∀ (a b : List Msg) (st : Watcher ω),
        MountDisks.everResolved O log systemd "" a st = false →
        MountDisks.everResolved O log systemd "" (a ++ b) st =
          MountDisks.everResolved O log systemd "" b (MountDisks.loop O log systemd a st) := by
      intro a
      induction a with
      | nil => intro b st _; rfl
      | cons m ms ih =>
        intro b st h
        simp only [MountDisks.everResolved, Bool.or_eq_false_iff] at h
        rw [List.cons_append, MountDisks.everResolved, MountDisks.loop, h.1, Bool.false_or,
          ih b _ h.2]
    rw [this pre _ _ hpre, MountDisks.everResolved, hres1, Bool.true_or]
  refine ⟨?_, ?_, ?_, ?_⟩
  · simp only [MountDisks.step]
    rw [handle_seen O log systemd e1 _ hc1, ht1, if_neg hnot]
  · refine ⟨(O.mkdir (O.evalSymlinks (MountDisks.loop O log systemd pre (Watcher.fresh os)).os
      e1.Name).2 (MountDisks.mountpoint e1.Name) 448).1, ?_⟩
    have hatt := handle_attempts O log systemd e1
      (MountDisks.loop O log systemd pre (Watcher.fresh os)) hc1
    rw [ht1, if_neg hnot] at hatt
    have : Event.mkdir (MountDisks.mountpoint e1.Name) 448
        (O.mkdir (O.evalSymlinks (MountDisks.loop O log systemd pre (Watcher.fresh os)).os
          e1.Name).2 (MountDisks.mountpoint e1.Name) 448).1 ∈
        (MountDisks.emitted O log systemd (Msg.event e1)
          (MountDisks.loop O log systemd pre (Watcher.fresh os))).filter Event.isAttempt := by
      rw [hatt]
      simp [MountDisks.expectedAttempts]
    exact (List.mem_filter.mp this).1
  · have hatt := handle_attempts O log systemd e2
      (MountDisks.loop O log systemd (pre ++ Msg.event e1 :: mid) (Watcher.fresh os)) hc2
    rw [ht2, if_pos hseen2] at hatt
    exact hatt
  · have := handle_emitted_seen O log systemd e2
      (MountDisks.loop O log systemd (pre ++ Msg.event e1 :: mid) (Watcher.fresh os)) hc2
      (by rw [ht2]; exact hseen2)
    rw [ht2] at this
    exact this

/-- C7: without the systemd flag the mount command is `mount -t ext4 -o <options> P M`.
With the flag, at the failing input, the command run is not the wrapper followed by
that invocation: the words `mount -t ext4 -o <options>` stand twice, so the mount
utility receives `-t ext4 -o <options> mount -t ext4 -o <options> P M`. -/
theorem mntcmd_systemd_repeats_mount :
    (∀ P M, MountDisks.mntcmd false P M =
      ["mount", "-t", "ext4", "-o", "rw,seclabel,relatime,data=ordered", P, M]) ∧
    (∀ P M, MountDisks.mntcmd true P M =
      ["systemd-run", "--scope", "--", "mount", "-t", "ext4", "-o",
        "rw,seclabel,relatime,data=ordered", "mount", "-t", "ext4", "-o",
        "rw,seclabel,relatime,data=ordered", P, M]) ∧
    (∀ P M, MountDisks.mntcmd true P M ≠
      ["systemd-run", "--scope", "--"] ++
        ["mount", "-t", "ext4", "-o", "rw,seclabel,relatime,data=ordered", P, M]) ∧
    (MountDisks.emitted demoOS [] true (Msg.event ⟨"/dev/disk/by-id/a", 1⟩)
      (Watcher.fresh 0)).filter Event.isAttempt =
      [Event.mkdir "/mnt/a" 448 none,
       Event.run ["mkfs.ext4", "-F", "-m0", "/dev/disk/by-id/a"] none,
       Event.run ["systemd-run", "--scope", "--", "mount", "-t", "ext4", "-o",
        "rw,seclabel,relatime,data=ordered", "mount", "-t", "ext4", "-o",
        "rw,seclabel,relatime,data=ordered", "/dev/disk/by-id/a", "/mnt/a"] none] := by
  refine ⟨fun P M => rfl, fun P M => rfl, ?_, ?_⟩
  · intro P M h
    have := congrArg List.length h
    simp [MountDisks.mntcmd] at this
  · rw [handle_attempts demoOS [] true _ _ (by decide)]
    have hmp : MountDisks.mountpoint "/dev/disk/by-id/a" = "/mnt/a" := by decide
    simp [Watcher.fresh, MountDisks.expectedAttempts, demoOS, hmp, MountDisks.fmtcmd,
      MountDisks.mntcmd]


/-- Witness for C5: two links to the same device; the second event attempts nothing, and
format and mount are each run once. -/
theorem MountDisks_once_witness :
    (MountDisks.emitted demoOS [] false (Msg.event ⟨"/dev/disk/by-id/b", 1⟩)
      (MountDisks.loop demoOS [] false [Msg.event ⟨"/dev/disk/by-id/a", 1⟩]
        (Watcher.fresh 0))).filter Event.isAttempt = [] ∧
    (MountDisks.attemptsFor demoOS [] false "/dev/sdb"
      [Msg.event ⟨"/dev/disk/by-id/a", 1⟩, Msg.event ⟨"/dev/disk/by-id/b", 1⟩]
      (Watcher.fresh 0)).countP Event.isFormat = 1 ∧
    (MountDisks.attemptsFor demoOS [] false "/dev/sdb"
      [Msg.event ⟨"/dev/disk/by-id/a", 1⟩, Msg.event ⟨"/dev/disk/by-id/b", 1⟩]
      (Watcher.fresh 0)).countP Event.isMount = 1 :=
  ⟨(MountDisks_once demoOS [] false 0
      [Msg.event ⟨"/dev/disk/by-id/a", 1⟩, Msg.event ⟨"/dev/disk/by-id/b", 1⟩] "/dev/sdb").1
      [Msg.event ⟨"/dev/disk/by-id/a", 1⟩] (Msg.event ⟨"/dev/disk/by-id/b", 1⟩) [] rfl
      (by decide) (by decide),
    (MountDisks_once demoOS [] false 0
      [Msg.event ⟨"/dev/disk/by-id/a", 1⟩, Msg.event ⟨"/dev/disk/by-id/b", 1⟩] "/dev/sdb").2.2.2.2
      [] ⟨"/dev/disk/by-id/a", 1⟩ [Msg.event ⟨"/dev/disk/by-id/b", 1⟩] rfl
      (by decide) (by decide) rfl rfl⟩

/-- Witness for C6: on one system the mountpoint exists already, so mkdir fails and no
command is run; on another the format command exits non-zero, so mount is not run. -/
theorem MountDisks_steps_gated_witness :
    (⟨"/dev/disk/by-id/a", 1⟩ : FsEvent).isCreate = true ∧
    (Event.mkdir "/mnt/a" 448 (some "mkdir: file exists") ∈
      MountDisks.emitted mkdirFailsOS [] false (Msg.event ⟨"/dev/disk/by-id/a", 1⟩)
        (Watcher.fresh 0) ∧
    ∀ e ∈ MountDisks.emitted mkdirFailsOS [] false (Msg.event ⟨"/dev/disk/by-id/a", 1⟩)
        (Watcher.fresh 0), e.isFormat = false ∧ e.isMount = false) ∧
    (Event.run ["mkfs.ext4", "-F", "-m0", "/dev/disk/by-id/a"] (some "exit status 1") ∈
      MountDisks.emitted runFailsOS [] false (Msg.event ⟨"/dev/disk/by-id/a", 1⟩)
        (Watcher.fresh 0) ∧
    ∀ e ∈ MountDisks.emitted runFailsOS [] false (Msg.event ⟨"/dev/disk/by-id/a", 1⟩)
        (Watcher.fresh 0), e.isMount = false) :=
  ⟨by decide,
    ⟨by decide,
      (MountDisks_steps_gated mkdirFailsOS [] false ⟨"/dev/disk/by-id/a", 1⟩ (Watcher.fresh 0)
        (by decide)).2.2.1 "mkdir: file exists" (by decide)⟩,
    ⟨by decide,
      (MountDisks_steps_gated runFailsOS [] false ⟨"/dev/disk/by-id/a", 1⟩ (Watcher.fresh 0)
        (by decide)).2.2.2.1 "exit status 1" (by decide)⟩⟩

/-- Witness for C10 as amended: after a link that resolves, two paths that do not
resolve; the mountpoint of the first is `/mnt/gone1`. -/
theorem MountDisks_unresolved_dedup_witness :
    filepath.Join ["/mnt", filepath.Base "/dev/disk/by-id/gone1"] = "/mnt/gone1" ∧
    (MountDisks.step demoOS [] false (Msg.event ⟨"/dev/disk/by-id/gone1", 1⟩)
      (MountDisks.loop demoOS [] false [Msg.event ⟨"/dev/disk/by-id/a", 1⟩]
        (Watcher.fresh 0))).seen =
        "" :: (MountDisks.loop demoOS [] false [Msg.event ⟨"/dev/disk/by-id/a", 1⟩]
          (Watcher.fresh 0)).seen ∧
    (∃ e, Event.mkdir (filepath.Join ["/mnt", filepath.Base "/dev/disk/by-id/gone1"]) 448 e ∈
      MountDisks.emitted demoOS [] false (Msg.event ⟨"/dev/disk/by-id/gone1", 1⟩)
        (MountDisks.loop demoOS [] false [Msg.event ⟨"/dev/disk/by-id/a", 1⟩]
          (Watcher.fresh 0))) ∧
    (MountDisks.emitted demoOS [] false (Msg.event ⟨"/dev/disk/by-id/gone2", 1⟩)
      (MountDisks.loop demoOS [] false
        ([Msg.event ⟨"/dev/disk/by-id/a", 1⟩] ++
          Msg.event ⟨"/dev/disk/by-id/gone1", 1⟩ :: [Msg.error "overflow"])
        (Watcher.fresh 0))).filter Event.isAttempt = [] ∧
    Event.log Level.info "Ignoring previously processed disk"
      ([] ++ [Field.string "disk" "/dev/disk/by-id/gone2",
        Field.string "mountpoint" (filepath.Join ["/mnt", filepath.Base "/dev/disk/by-id/gone2"]),
        Field.string "target" ""]) ∈
      MountDisks.emitted demoOS [] false (Msg.event ⟨"/dev/disk/by-id/gone2", 1⟩)
        (MountDisks.loop demoOS [] false
          ([Msg.event ⟨"/dev/disk/by-id/a", 1⟩] ++
            Msg.event ⟨"/dev/disk/by-id/gone1", 1⟩ :: [Msg.error "overflow"])
          (Watcher.fresh 0)) :=
  ⟨by decide,
    MountDisks_unresolved_dedup demoOS [] false 0 [Msg.event ⟨"/dev/disk/by-id/a", 1⟩]
      [Msg.error "overflow"] ⟨"/dev/disk/by-id/gone1", 1⟩ ⟨"/dev/disk/by-id/gone2", 1⟩
      "lstat: no such file or directory" "lstat: no such file or directory"
      (by decide) (by decide) (by decide) (by rfl) (by rfl)⟩

/-- C10 as first stated fails: three creation events with distinct paths gone0, gone1,
gone2, none of which resolves. The resolutions of gone1 and gone2 both fail, yet gone1,
the first of that pair, is skipped: the key of gone0 is already the empty string, and
neither mkdir of `/mnt/gone1` nor any command is attempted for gone1. -/
theorem MountDisks_unresolved_pair_counterexample :
    (⟨"/dev/disk/by-id/gone1", 1⟩ : FsEvent).isCreate = true ∧
    (⟨"/dev/disk/by-id/gone2", 1⟩ : FsEvent).isCreate = true ∧
    "/dev/disk/by-id/gone1" ≠ "/dev/disk/by-id/gone2" ∧
    (demoOS.evalSymlinks
      (MountDisks.loop demoOS [] false [Msg.event ⟨"/dev/disk/by-id/gone0", 1⟩]
        (Watcher.fresh 0)).os "/dev/disk/by-id/gone1").1 =
      ("", some "lstat: no such file or directory") ∧
    (demoOS.evalSymlinks
      (MountDisks.loop demoOS [] false
        [Msg.event ⟨"/dev/disk/by-id/gone0", 1⟩, Msg.event ⟨"/dev/disk/by-id/gone1", 1⟩]
        (Watcher.fresh 0)).os "/dev/disk/by-id/gone2").1 =
      ("", some "lstat: no such file or directory") ∧
    filepath.Join ["/mnt", filepath.Base "/dev/disk/by-id/gone1"] = "/mnt/gone1" ∧
    (MountDisks.emitted demoOS [] false (Msg.event ⟨"/dev/disk/by-id/gone1", 1⟩)
      (MountDisks.loop demoOS [] false [Msg.event ⟨"/dev/disk/by-id/gone0", 1⟩]
        (Watcher.fresh 0))).filter Event.isAttempt = [] ∧
    ¬ ∃ e, Event.mkdir "/mnt/gone1" 448 e ∈
      MountDisks.emitted demoOS [] false (Msg.event ⟨"/dev/disk/by-id/gone1", 1⟩)
        (MountDisks.loop demoOS [] false [Msg.event ⟨"/dev/disk/by-id/gone0", 1⟩]
          (Watcher.fresh 0)) := by
  have hnone : (MountDisks.emitted demoOS [] false (Msg.event ⟨"/dev/disk/by-id/gone1", 1⟩)
      (MountDisks.loop demoOS [] false [Msg.event ⟨"/dev/disk/by-id/gone0", 1⟩]
        (Watcher.fresh 0))).filter Event.isAttempt = [] := by decide
  refine ⟨by decide, by decide, by decide, by rfl, by rfl, by decide, hnone, ?_⟩
  rintro ⟨e, he⟩
  have hmem : Event.mkdir "/mnt/gone1" 448 e ∈
      (MountDisks.emitted demoOS [] false (Msg.event ⟨"/dev/disk/by-id/gone1", 1⟩)
        (MountDisks.loop demoOS [] false [Msg.event ⟨"/dev/disk/by-id/gone0", 1⟩]
          (Watcher.fresh 0))).filter Event.isAttempt :=
    List.mem_filter.mpr ⟨he, rfl⟩
  rw [hnone] at hmem
  exact absurd hmem (List.not_mem_nil _)

end Gcevolumebug
